import Mathlib

/-!
Verification development for the `merge-counts` matrix-merge engine
(`mergecounts/utils/matrix.py` and the legacy twin implementations in
`mergecounts/__main__.py`).

A pandas `DataFrame` as used by this program is modelled as a keyed table:
a list of column labels (sample identifiers) and a list of rows, each row
being a row key (gene name) paired with the list of cell values for the
columns, in column order.  A cell is `Option Int`: `none` models a missing
cell (pandas `NaN` introduced by an outer join).  The program only ever
builds single-value-column tables with unique row keys (`read_counts`
labels each file's table with its sample name and sets the gene-name
index), so the model of `DataFrame.merge(..., how="outer",
left_index=True, right_index=True)` below reflects pandas semantics on
unique indexes: the result index is the two indexes' union — kept in the
left index's order when the two indexes are equal, sorted ascending
otherwise — each side contributing its cell values for keys it has and
`NaN` (here `none`) for keys it lacks, and the result columns are the left
columns followed by the right columns.
-/

namespace MergeCounts

/-- Code-point-wise lexicographic comparison of character lists, the order
Python's `sorted` uses on strings (and the order pandas sorts a string
index by). -/
def lexLeB : List Char → List Char → Bool
  | [], _ => true
  | _ :: _, [] => false
  | a :: as, b :: bs =>
    if a.toNat < b.toNat then true
    else if b.toNat < a.toNat then false
    else lexLeB as bs

/-- Lexicographic `≤` on strings by Unicode code point, Python's string
order. -/
def keyLe (a b : String) : Prop := lexLeB a.data b.data = true

instance : DecidableRel keyLe := fun a b =>
  instDecidableEqBool (lexLeB a.data b.data) true

theorem lexLeB_cons_iff {a b : Char} {as bs : List Char} :
    lexLeB (a :: as) (b :: bs) = true ↔
      a.toNat < b.toNat ∨ (a.toNat = b.toNat ∧ lexLeB as bs = true) := by
  show (if a.toNat < b.toNat then true
    else if b.toNat < a.toNat then false else lexLeB as bs) = true ↔ _
  split_ifs with h1 h2
  · simp [h1]
  · constructor
    · intro h
      simp at h
    · intro h
      rcases h with h | ⟨h, _⟩ <;> omega
  · have heq : a.toNat = b.toNat := by omega
    simp [heq]

theorem lexLeB_total : ∀ x y : List Char, lexLeB x y = true ∨ lexLeB y x = true
  | [], _ => Or.inl rfl
  | _ :: _, [] => Or.inr rfl
  | a :: as, b :: bs => by
    rw [lexLeB_cons_iff, lexLeB_cons_iff]
    rcases Nat.lt_trichotomy a.toNat b.toNat with h | h | h
    · exact Or.inl (Or.inl h)
    · rcases lexLeB_total as bs with ih | ih
      · exact Or.inl (Or.inr ⟨h, ih⟩)
      · exact Or.inr (Or.inr ⟨h.symm, ih⟩)
    · exact Or.inr (Or.inl h)

theorem lexLeB_trans : ∀ x y z : List Char,
    lexLeB x y = true → lexLeB y z = true → lexLeB x z = true
  | [], _, _, _, _ => rfl
  | _ :: _, [], _, h, _ => by simp [lexLeB] at h
  | _ :: _, _ :: _, [], _, h => by simp [lexLeB] at h
  | a :: as, b :: bs, c :: cs, h1, h2 => by
    rw [lexLeB_cons_iff] at h1 h2 ⊢
    rcases h1 with h1 | ⟨h1, t1⟩
    · rcases h2 with h2 | ⟨h2, _⟩
      · exact Or.inl (by omega)
      · exact Or.inl (by omega)
    · rcases h2 with h2 | ⟨h2, t2⟩
      · exact Or.inl (by omega)
      · exact Or.inr ⟨by omega, lexLeB_trans as bs cs t1 t2⟩

theorem char_toNat_inj {a b : Char} (h : a.toNat = b.toNat) : a = b :=
  Char.eq_of_val_eq (UInt32.eq_of_toBitVec_eq (BitVec.eq_of_toNat_eq h))

theorem lexLeB_antisymm : ∀ x y : List Char,
    lexLeB x y = true → lexLeB y x = true → x = y
  | [], [], _, _ => rfl
  | [], _ :: _, _, h => by simp [lexLeB] at h
  | _ :: _, [], h, _ => by simp [lexLeB] at h
  | a :: as, b :: bs, h1, h2 => by
    rw [lexLeB_cons_iff] at h1 h2
    rcases h1 with h1 | ⟨h1, t1⟩
    · rcases h2 with h2 | ⟨h2, _⟩ <;> omega
    · rcases h2 with h2 | ⟨h2, t2⟩
      · omega
      · rw [char_toNat_inj h1, lexLeB_antisymm as bs t1 t2]

instance : IsTotal String keyLe := ⟨fun a b => lexLeB_total a.data b.data⟩

instance : IsTrans String keyLe := ⟨fun a b c => lexLeB_trans a.data b.data c.data⟩

instance : IsAntisymm String keyLe :=
  ⟨fun a b h1 h2 => by
    cases a
    cases b
    exact congrArg String.mk (lexLeB_antisymm _ _ h1 h2)⟩

/-- A keyed table: column labels plus rows of (row key, cells). -/
structure DataFrame where
  cols : List String
  rows : List (String × List (Option Int))
deriving DecidableEq, Repr, Inhabited

/-- First-match association-list lookup (pandas label-based indexing). -/
def assocLookup {β : Type} : List (String × β) → String → Option β
  | [], _ => none
  | (k, v) :: rest, key => if key = k then some v else assocLookup rest key

namespace DataFrame

/-- The row keys (the pandas index), in order. -/
def keys (df : DataFrame) : List String := df.rows.map Prod.fst

/-- Number of rows and number of columns, as pandas `DataFrame.shape`. -/
def shape (df : DataFrame) : Nat × Nat := (df.rows.length, df.cols.length)

/-- The cells of the row labelled `k`; a full row of missing markers when
`k` is not in the index (the fill an outer join performs). -/
def rowAt (df : DataFrame) (k : String) : List (Option Int) :=
  (assocLookup df.rows k).getD (List.replicate df.cols.length none)

/-- The cell at row key `k`, column label `c`: `none` when the coordinate
does not exist at all, `some cell` otherwise (with `cell = none` for a
missing-value marker).  Models `df[c][k]`. -/
def cellAt (df : DataFrame) (k c : String) : Option (Option Int) :=
  (assocLookup df.rows k).bind (fun r => assocLookup (df.cols.zip r) c)

/-- Column selection `df[cs]`: the listed columns, in the listed order,
with cell values following their labels. -/
def selectCols (df : DataFrame) (cs : List String) : DataFrame :=
  { cols := cs,
    rows := df.rows.map (fun kr =>
      (kr.1, cs.map (fun c => (assocLookup (df.cols.zip kr.2) c).getD none))) }

/-- Well-formedness of a table as this program builds them: unique row
keys, and every row exactly as wide as the column list. -/
def WF (df : DataFrame) : Prop :=
  (df.rows.map Prod.fst).Nodup ∧ ∀ r ∈ df.rows, r.2.length = df.cols.length

instance (df : DataFrame) : Decidable df.WF :=
  inferInstanceAs (Decidable (_ ∧ _))

end DataFrame

/-- The union of two unique indexes, sorted ascending (pandas
`Index.union` on distinct indexes). -/
def sortedUnion (a b : List String) : List String :=
  (a ++ b.filter (fun x => decide (x ∉ a))).insertionSort keyLe

/-- The index of a pandas outer join on two unique indexes: the left index
itself when the two are equal, otherwise the sorted union. -/
def joinIndex (a b : List String) : List String :=
  if a = b then a else sortedUnion a b

/-- `one.merge(two, how="outer", left_index=True, right_index=True)`. -/
def mergeOuter (a b : DataFrame) : DataFrame :=
  { cols := a.cols ++ b.cols,
    rows := (joinIndex a.keys b.keys).map (fun k => (k, a.rowAt k ++ b.rowAt k)) }

/-- The error taxonomy of the merge engine.  `emptyInput` is the
`ValueError` for zero input tables; `shapeMismatch` carries the actual and
the expected final shape; `mergeArithmetic` is the fatal "Math was
incorrect!" internal-consistency failure; `notConcordant` is the
concordance assertion failure; `coherence` names the sample, the gene, the
standalone value and the merged value of a failed spot check; `keyError`
and `indexError` model the corresponding Python lookup exceptions. -/
inductive MergeError where
  | emptyInput : MergeError
  | shapeMismatch : Nat × Nat → Nat × Nat → MergeError
  | mergeArithmetic : MergeError
  | notConcordant : MergeError
  | coherence : String → String → Option Int → Option Int → MergeError
  | keyError : MergeError
  | indexError : MergeError
deriving DecidableEq, Repr

instance {ε α : Type} [DecidableEq ε] [DecidableEq α] :
    DecidableEq (Except ε α)
  | .error a, .error b => decidable_of_iff (a = b) (by simp)
  | .error _, .ok _ => isFalse (by simp)
  | .ok _, .error _ => isFalse (by simp)
  | .ok a, .ok b => decidable_of_iff (a = b) (by simp)

namespace Matrix

/-- `mergecounts.utils.matrix.join_dataframes_sequentially`: left-to-right
outer joins into an accumulator, then the final shape assertion against
`(row count of the first table, number of tables)`. -/
def join_dataframes_sequentially (dfs : List DataFrame) :
    Except MergeError DataFrame :=
  match dfs with
  | [] => .error .emptyInput
  | d0 :: rest =>
    let expected := (d0.shape.1, (d0 :: rest).length)
    let result := rest.foldl mergeOuter d0
    if result.shape = expected then .ok result
    else .error (.shapeMismatch result.shape expected)

/-- One pass of the inner `while len(dfs) > 0` loop: pop two and merge
them, or pop the lone trailing table unmerged. -/
def pairRound : List DataFrame → List DataFrame
  | [] => []
  | [x] => [x]
  | x :: y :: rest => mergeOuter x y :: pairRound rest

theorem pairRound_length : (l : List DataFrame) →
    (pairRound l).length = (l.length + 1) / 2
  | [] => rfl
  | [_] => by simp [pairRound]
  | _ :: _ :: rest => by simp [pairRound, pairRound_length rest]; omega

/-- The outer `while len(dfs) > 1` loop of the recursive merger. -/
def reduceRounds (dfs : List DataFrame) : List DataFrame :=
  if 1 < dfs.length then reduceRounds (pairRound dfs) else dfs
termination_by dfs.length
decreasing_by simp [pairRound_length]; omega

/-- The `num_iterations_needed` bookkeeping loop of the recursive merger:
starting from the number of input tables, accumulate `ceil(n / 2)` per
round until one table is left (the progress-bar total). -/
def numIterationsNeeded (n : Nat) : Nat :=
  if 1 < n then (n + 1) / 2 + numIterationsNeeded ((n + 1) / 2) else 0
termination_by n
decreasing_by omega

/-- The number of `merge` calls in one pass of the inner loop. -/
def pairRoundOps : List DataFrame → Nat
  | [] => 0
  | [_] => 0
  | _ :: _ :: rest => 1 + pairRoundOps rest

/-- The number of pairwise outer-join operations the reduction loop
performs in total. -/
def reduceRoundsOps (dfs : List DataFrame) : Nat :=
  if 1 < dfs.length then pairRoundOps dfs + reduceRoundsOps (pairRound dfs)
  else 0
termination_by dfs.length
decreasing_by simp [pairRound_length]; omega

/-- `mergecounts.utils.matrix.join_dataframes_recursively`: reduce the
table list in pairwise rounds, assert one table remains ("Math was
incorrect!" otherwise), reorder its columns by sorted label
(`result[sorted(result.columns.values)]`), then the final shape
assertion. -/
def join_dataframes_recursively (dfs : List DataFrame) :
    Except MergeError DataFrame :=
  match dfs with
  | [] => .error .emptyInput
  | d0 :: rest =>
    let expected := (d0.shape.1, (d0 :: rest).length)
    match reduceRounds (d0 :: rest) with
    | [r] =>
      let result := r.selectCols (r.cols.insertionSort keyLe)
      if result.shape = expected then .ok result
      else .error (.shapeMismatch result.shape expected)
    | _ => .error .mergeArithmetic

/-- `mergecounts.utils.matrix.concordance_test`: run both mergers on the
same input list and assert the two resulting frames fully equal
(`pd.testing.assert_frame_equal`). -/
def concordance_test (dfs : List DataFrame) : Except MergeError Unit :=
  match join_dataframes_sequentially dfs with
  | .error e => .error e
  | .ok s =>
    match join_dataframes_recursively dfs with
    | .error e => .error e
    | .ok r => if s = r then .ok () else .error .notConcordant

/-- One parsed count file turned into a table: the sample name as the
single column label, the gene name as the index
(`dataframe.columns = ["Gene Name", sample_name]; set_index`). -/
def buildTable (c : String × List (String × Int)) : DataFrame :=
  { cols := [c.1], rows := c.2.map (fun gv => (gv.1, [some gv.2])) }

/-- `mergecounts.utils.matrix.read_counts` on already-parsed file
contents: optionally truncate to the first `limit_inputs` files (a limit
of `0` is falsy in Python and truncates nothing), build one table per
file, then fail on the first table whose shape differs from the first
table's shape.  An empty batch hits `dfs[0]` (an `IndexError`). -/
def read_counts (counts : List (String × List (String × Int)))
    (limit_inputs : Option Nat) : Except MergeError (List DataFrame) :=
  let counts := match limit_inputs with
    | some n => if n = 0 then counts else counts.take n
    | none => counts
  let dfs := counts.map buildTable
  match dfs with
  | [] => .error .indexError
  | d0 :: _ =>
    match dfs.find? (fun t => decide (t.shape ≠ d0.shape)) with
    | some t => .error (.shapeMismatch t.shape d0.shape)
    | none => .ok dfs

/-- The sample identifier of a table: its first column label
(`_sample.columns.values[0]`). -/
def sampleOf (df : DataFrame) : String := df.cols.headD ""

/-- Python `!=` on cell values, where a missing cell is `NaN`: `NaN`
compares unequal to everything, itself included. -/
def pyNeq : Option Int → Option Int → Bool
  | some x, some y => decide (x ≠ y)
  | _, _ => true

/-- One iteration of the coherence-check loop, with the sampled row made
explicit as an index `i`: read row `i` of the table, look the (gene,
sample) coordinate up in the merged matrix, and fail with the full
diagnostic context when the two values compare unequal. -/
def coherenceOne (merged df : DataFrame) (i : Nat) : Except MergeError Unit :=
  match df.rows.get? i, df.cols.head? with
  | some (gene, vals), some samplename =>
    match vals.head? with
    | some v =>
      match merged.cellAt gene samplename with
      | some cell =>
        if pyNeq v cell then .error (.coherence samplename gene v cell)
        else .ok ()
      | none => .error .keyError
    | none => .error .indexError
  | _, _ => .error .indexError

/-- `mergecounts.utils.matrix.randomly_sample_coherence_check`, with the
random row draw of `dataframe.sample(axis=0)` made explicit as one row
index per table. -/
def randomly_sample_coherence_check :
    List DataFrame → DataFrame → List Nat → Except MergeError Unit
  | [], _, _ => .ok ()
  | df :: rest, merged, picks =>
    match coherenceOne merged df (picks.headD 0) with
    | .ok _ => randomly_sample_coherence_check rest merged picks.tail
    | .error e => .error e

end Matrix

namespace MainModule

/-- `mergecounts.__main__.join_dataframes_recursively`: identical
reduction, but the final column step is `result.columns =
sorted(result.columns)` — it assigns the sorted labels onto the existing
columns positionally without moving any cell data. -/
def join_dataframes_recursively_main (dfs : List DataFrame) :
    Except MergeError DataFrame :=
  match dfs with
  | [] => .error .emptyInput
  | d0 :: rest =>
    let expected := (d0.shape.1, (d0 :: rest).length)
    match Matrix.reduceRounds (d0 :: rest) with
    | [r] =>
      let result : DataFrame := { r with cols := r.cols.insertionSort keyLe }
      if result.shape = expected then .ok result
      else .error (.shapeMismatch result.shape expected)
    | _ => .error .mergeArithmetic

end MainModule

/-! Association-list and zip facts used throughout the development. -/

theorem assocLookup_eq_none_iff {β : Type} (l : List (String × β)) (k : String) :
    assocLookup l k = none ↔ k ∉ l.map Prod.fst := by
  induction l with
  | nil => simp [assocLookup]
  | cons p rest ih =>
    obtain ⟨k1, v1⟩ := p
    by_cases h : k = k1 <;> simp [assocLookup, h, ih]

theorem assocLookup_mem {β : Type} {l : List (String × β)} {k : String} {v : β}
    (h : assocLookup l k = some v) : (k, v) ∈ l := by
  induction l with
  | nil => simp [assocLookup] at h
  | cons p rest ih =>
    obtain ⟨k1, v1⟩ := p
    by_cases hk : k = k1
    · simp [assocLookup, hk] at h
      simp [hk, h]
    · simp [assocLookup, hk] at h
      exact List.mem_cons_of_mem _ (ih h)

theorem assocLookup_of_mem_nodup {β : Type} {l : List (String × β)} {k : String}
    {v : β} (hn : (l.map Prod.fst).Nodup) (hm : (k, v) ∈ l) :
    assocLookup l k = some v := by
  induction l with
  | nil => simp at hm
  | cons p rest ih =>
    obtain ⟨k1, v1⟩ := p
    simp only [List.map_cons, List.nodup_cons] at hn
    rcases List.mem_cons.1 hm with h | h
    · obtain ⟨hk, hv⟩ := Prod.mk.injEq k v k1 v1 ▸ h
      subst hk
      subst hv
      simp [assocLookup]
    · have hk : k ≠ k1 := by
        intro hkk
        exact hn.1 (hkk ▸ (List.mem_map.2 ⟨(k, v), h, rfl⟩))
      simp [assocLookup, hk, ih hn.2 h]

theorem assocLookup_graph {β : Type} (l : List String) (f : String → β)
    (k : String) :
    assocLookup (l.map (fun x => (x, f x))) k =
      if k ∈ l then some (f k) else none := by
  induction l with
  | nil => simp [assocLookup]
  | cons x rest ih =>
    by_cases h : k = x <;> simp [assocLookup, h, ih]

theorem assocLookup_append_left {β : Type} {l1 : List (String × β)}
    (l2 : List (String × β)) {k : String} {v : β}
    (h : assocLookup l1 k = some v) : assocLookup (l1 ++ l2) k = some v := by
  induction l1 with
  | nil => simp [assocLookup] at h
  | cons p rest ih =>
    obtain ⟨k1, v1⟩ := p
    by_cases hk : k = k1 <;> simp_all [assocLookup]

theorem assocLookup_append_right {β : Type} {l1 : List (String × β)}
    (l2 : List (String × β)) {k : String}
    (h : k ∉ l1.map Prod.fst) : assocLookup (l1 ++ l2) k = assocLookup l2 k := by
  induction l1 with
  | nil => rfl
  | cons p rest ih =>
    obtain ⟨k1, v1⟩ := p
    simp only [List.map_cons, List.mem_cons, not_or] at h
    simp [assocLookup, h.1, ih h.2]

theorem assocLookup_map_pair {β γ : Type} (l : List (String × β))
    (g : String × β → γ) (k : String) :
    assocLookup (l.map (fun p => (p.1, g p))) k =
      (assocLookup l k).map (fun v => g (k, v)) := by
  induction l with
  | nil => rfl
  | cons p rest ih =>
    obtain ⟨k1, v1⟩ := p
    by_cases hk : k = k1
    · subst hk
      simp [assocLookup]
    · simp [assocLookup, hk, ih]

theorem graph_of_assoc {β : Type} (l : List (String × β)) (f : String → β)
    (hf : ∀ p ∈ l, f p.1 = p.2) :
    (l.map Prod.fst).map (fun k => (k, f k)) = l := by
  induction l with
  | nil => rfl
  | cons p rest ih =>
    obtain ⟨k1, v1⟩ := p
    have h1 : f k1 = v1 := hf (k1, v1) (List.mem_cons_self _ _)
    simp only [List.map_cons, h1, List.cons.injEq, true_and]
    exact ih (fun q hq => hf q (List.mem_cons_of_mem _ hq))

theorem zip_graph {β : Type} (l : List String) (f : String → β) :
    l.zip (l.map f) = l.map (fun x => (x, f x)) := by
  induction l with
  | nil => rfl
  | cons x rest ih => simp [ih]

theorem zip_append_of_length_eq {α β : Type} {l1 : List α} {l2 : List β}
    (r1 : List α) (r2 : List β) (h : l1.length = l2.length) :
    (l1 ++ r1).zip (l2 ++ r2) = l1.zip l2 ++ r1.zip r2 := by
  induction l1 generalizing l2 with
  | nil =>
    cases l2 with
    | nil => rfl
    | cons b bs => simp at h
  | cons a as ih =>
    cases l2 with
    | nil => simp at h
    | cons b bs =>
      simp only [List.length_cons, Nat.succ.injEq] at h
      simp [ih h]

theorem fst_mem_of_mem_zip {α β : Type} {l1 : List α} {l2 : List β}
    {p : α × β} (h : p ∈ l1.zip l2) : p.1 ∈ l1 :=
  (List.of_mem_zip h).1

theorem sorted_nodup_eq_insertionSort {l m : List String}
    (hs : l.Sorted keyLe) (hn : l.Nodup) (hm : m.Nodup)
    (hfin : l.toFinset = m.toFinset) : l = m.insertionSort keyLe :=
  List.eq_of_perm_of_sorted
    ((List.perm_of_nodup_nodup_toFinset_eq hn hm hfin).trans
      (List.perm_insertionSort keyLe m).symm)
    hs (List.sorted_insertionSort keyLe m)

theorem insertionSort_congr_toFinset {l m : List String}
    (hl : l.Nodup) (hm : m.Nodup) (hfin : l.toFinset = m.toFinset) :
    l.insertionSort keyLe = m.insertionSort keyLe :=
  sorted_nodup_eq_insertionSort (List.sorted_insertionSort keyLe l)
    ((List.perm_insertionSort keyLe l).nodup_iff.2 hl) hm
    ((List.toFinset_eq_of_perm _ _ (List.perm_insertionSort keyLe l)).trans hfin)

theorem mem_sortedUnion {a b : List String} {k : String} :
    k ∈ sortedUnion a b ↔ k ∈ a ∨ k ∈ b := by
  unfold sortedUnion
  rw [(List.perm_insertionSort keyLe _).mem_iff]
  by_cases h : k ∈ a <;> simp [h]

theorem sortedUnion_toFinset (a b : List String) :
    (sortedUnion a b).toFinset = a.toFinset ∪ b.toFinset := by
  ext x
  simp [mem_sortedUnion, List.mem_toFinset, Finset.mem_union]

theorem sortedUnion_nodup {a b : List String} (ha : a.Nodup) (hb : b.Nodup) :
    (sortedUnion a b).Nodup := by
  unfold sortedUnion
  rw [(List.perm_insertionSort keyLe _).nodup_iff]
  refine List.Nodup.append ha (hb.filter _) ?_
  intro x hxa hxf
  have := List.of_mem_filter hxf
  simp at this
  exact this hxa

theorem sortedUnion_sorted (a b : List String) :
    (sortedUnion a b).Sorted keyLe :=
  List.sorted_insertionSort keyLe _

theorem assocLookup_zip_isSome {l1 : List String} {l2 : List (Option Int)}
    {c : String} (hc : c ∈ l1) (hlen : l2.length = l1.length) :
    (assocLookup (l1.zip l2) c).isSome := by
  induction l1 generalizing l2 with
  | nil => simp at hc
  | cons x rest ih =>
    cases l2 with
    | nil => simp at hlen
    | cons y ys =>
      by_cases h : c = x
      · simp [assocLookup, h]
      · rcases List.mem_cons.1 hc with hcx | hcr
        · exact absurd hcx h
        · simp only [List.length_cons, Nat.succ.injEq] at hlen
          simp [List.zip_cons_cons, assocLookup, h]
          exact ih hcr hlen

/-! Closed forms for an arbitrary tree of pairwise outer joins over a list
of leaf tables.  Both the sequential fold and the recursive reduction are
shown to produce `bigMergeFrame` of their leaf list. -/

/-- All column labels of the leaves, in leaf order. -/
def colsJoin (L : List DataFrame) : List String := (L.map DataFrame.cols).flatten

/-- The row that key `k` gets after all joins: each leaf contributes its
own cells for `k`, or missing markers if it lacks `k`. -/
def bigRow (L : List DataFrame) (k : String) : List (Option Int) :=
  (L.map (fun df => df.rowAt k)).flatten

/-- All distinct row keys of the leaves, in first-appearance order. -/
def keysUnionList (L : List DataFrame) : List String :=
  ((L.map DataFrame.keys).flatten).dedup

/-- The index an arbitrary join tree over the leaves ends with: the common
index when every leaf has the same one (pandas keeps equal indexes as they
are), otherwise the sorted union of all leaf keys. -/
def finalKeys : List DataFrame → List String
  | [] => []
  | d :: rest =>
    if ∀ x ∈ d :: rest, x.keys = d.keys then d.keys
    else (keysUnionList (d :: rest)).insertionSort keyLe

/-- The closed form of any tree of pairwise outer joins over leaves `L`. -/
def bigMergeFrame (L : List DataFrame) : DataFrame :=
  { cols := colsJoin L,
    rows := (finalKeys L).map (fun k => (k, bigRow L k)) }

theorem mem_keysUnionList {L : List DataFrame} {k : String} :
    k ∈ keysUnionList L ↔ ∃ df ∈ L, k ∈ df.keys := by
  simp [keysUnionList, List.mem_dedup, List.mem_flatten]

theorem keysUnionList_nodup (L : List DataFrame) : (keysUnionList L).Nodup :=
  List.nodup_dedup _

theorem keysUnionList_append_toFinset (L1 L2 : List DataFrame) :
    (keysUnionList (L1 ++ L2)).toFinset =
      (keysUnionList L1).toFinset ∪ (keysUnionList L2).toFinset := by
  ext x
  simp only [List.mem_toFinset, Finset.mem_union, mem_keysUnionList,
    List.mem_append]
  constructor
  · rintro ⟨df, h | h, hk⟩
    · exact Or.inl ⟨df, h, hk⟩
    · exact Or.inr ⟨df, h, hk⟩
  · rintro (⟨df, h, hk⟩ | ⟨df, h, hk⟩)
    · exact ⟨df, Or.inl h, hk⟩
    · exact ⟨df, Or.inr h, hk⟩

theorem finalKeys_cons (d : DataFrame) (rest : List DataFrame) :
    finalKeys (d :: rest) =
      if ∀ x ∈ d :: rest, x.keys = d.keys then d.keys
      else (keysUnionList (d :: rest)).insertionSort keyLe := rfl

theorem finalKeys_toFinset {L : List DataFrame} (h : L ≠ []) :
    (finalKeys L).toFinset = (keysUnionList L).toFinset := by
  match L with
  | [] => exact absurd rfl h
  | d :: rest =>
    rw [finalKeys_cons]
    split_ifs with hall
    · ext x
      simp only [List.mem_toFinset, mem_keysUnionList]
      constructor
      · intro hx
        exact ⟨d, List.mem_cons_self d rest, hx⟩
      · rintro ⟨df, hdf, hk⟩
        rwa [hall df hdf] at hk
    · exact List.toFinset_eq_of_perm _ _ (List.perm_insertionSort keyLe _)

theorem mem_finalKeys {L : List DataFrame} (h : L ≠ []) {k : String} :
    k ∈ finalKeys L ↔ ∃ df ∈ L, k ∈ df.keys := by
  rw [← List.mem_toFinset, finalKeys_toFinset h, List.mem_toFinset,
    mem_keysUnionList]

theorem finalKeys_nodup {L : List DataFrame}
    (h : ∀ df ∈ L, df.keys.Nodup) : (finalKeys L).Nodup := by
  match L with
  | [] => exact List.nodup_nil
  | d :: rest =>
    rw [finalKeys_cons]
    split_ifs with hall
    · exact h d (List.mem_cons_self d rest)
    · exact (List.perm_insertionSort keyLe _).nodup_iff.2
        (keysUnionList_nodup _)

theorem joinIndex_finalKeys {L1 L2 : List DataFrame}
    (h1 : L1 ≠ []) (h2 : L2 ≠ [])
    (hnd1 : ∀ df ∈ L1, df.keys.Nodup) (hnd2 : ∀ df ∈ L2, df.keys.Nodup) :
    joinIndex (finalKeys L1) (finalKeys L2) = finalKeys (L1 ++ L2) := by
  obtain ⟨d1, rest1, rfl⟩ := List.exists_cons_of_ne_nil h1
  obtain ⟨d2, rest2, rfl⟩ := List.exists_cons_of_ne_nil h2
  have hrw : finalKeys (d1 :: rest1 ++ d2 :: rest2) =
      if ∀ x ∈ d1 :: rest1 ++ d2 :: rest2, x.keys = d1.keys then d1.keys
      else (keysUnionList (d1 :: rest1 ++ d2 :: rest2)).insertionSort keyLe :=
    finalKeys_cons d1 (rest1 ++ d2 :: rest2)
  have hfinapp : (keysUnionList (d1 :: rest1 ++ d2 :: rest2)).toFinset =
      (keysUnionList (d1 :: rest1)).toFinset ∪
        (keysUnionList (d2 :: rest2)).toFinset :=
    keysUnionList_append_toFinset (d1 :: rest1) (d2 :: rest2)
  unfold joinIndex
  split_ifs with heq
  · -- equal indexes: the join keeps the left index.
    have hfin12 : (keysUnionList (d1 :: rest1)).toFinset =
        (keysUnionList (d2 :: rest2)).toFinset := by
      rw [← finalKeys_toFinset h1, ← finalKeys_toFinset h2, heq]
    by_cases hall : ∀ x ∈ d1 :: rest1 ++ d2 :: rest2, x.keys = d1.keys
    · -- every leaf on both sides has the same index already.
      rw [hrw, if_pos hall, finalKeys_cons, if_pos]
      intro x hx
      exact hall x (List.mem_append_left _ hx)
    · -- the result must be the canonical sorted union.
      rw [hrw, if_neg hall]
      have hsorted : (finalKeys (d1 :: rest1)).Sorted keyLe := by
        rw [finalKeys_cons]
        split_ifs with hall1
        · -- left side all-equal; then the right side cannot be all-equal,
          -- so the shared index is itself an insertion-sort result.
          by_cases hall2 : ∀ x ∈ d2 :: rest2, x.keys = d2.keys
          · exfalso
            apply hall
            intro x hx
            rcases List.mem_append.1 hx with hx1 | hx2
            · exact hall1 x hx1
            · rw [hall2 x hx2]
              have hd2 : d2.keys = finalKeys (d2 :: rest2) := by
                rw [finalKeys_cons, if_pos hall2]
              rw [hd2, ← heq, finalKeys_cons, if_pos hall1]
          · have hfk2 : finalKeys (d2 :: rest2) =
                (keysUnionList (d2 :: rest2)).insertionSort keyLe := by
              rw [finalKeys_cons, if_neg hall2]
            have hd1 : d1.keys = finalKeys (d2 :: rest2) := by
              rw [← heq, finalKeys_cons, if_pos hall1]
            rw [hd1, hfk2]
            exact List.sorted_insertionSort keyLe _
        · exact List.sorted_insertionSort keyLe _
      refine sorted_nodup_eq_insertionSort hsorted
        (finalKeys_nodup hnd1) (keysUnionList_nodup _) ?_
      rw [finalKeys_toFinset h1, hfinapp, hfin12, Finset.union_self]
  · -- distinct indexes: the join sorts the union of the two.
    have hall : ¬ ∀ x ∈ d1 :: rest1 ++ d2 :: rest2, x.keys = d1.keys := by
      intro hall
      apply heq
      have hl : finalKeys (d1 :: rest1) = d1.keys := by
        rw [finalKeys_cons, if_pos]
        intro x hx
        exact hall x (List.mem_append_left _ hx)
      have hr : finalKeys (d2 :: rest2) = d2.keys := by
        rw [finalKeys_cons, if_pos]
        intro x hx
        have hxk : x.keys = d1.keys :=
          hall x (List.mem_append_right _ hx)
        have hd2k : d2.keys = d1.keys :=
          hall d2 (List.mem_append_right _ (List.mem_cons_self _ _))
        rw [hxk, hd2k]
      rw [hl, hr]
      exact (hall d2 (List.mem_append_right _ (List.mem_cons_self _ _))).symm
    rw [hrw, if_neg hall]
    refine sorted_nodup_eq_insertionSort (sortedUnion_sorted _ _)
      (sortedUnion_nodup (finalKeys_nodup hnd1) (finalKeys_nodup hnd2))
      (keysUnionList_nodup _) ?_
    rw [sortedUnion_toFinset, finalKeys_toFinset h1, finalKeys_toFinset h2,
      hfinapp]

theorem rowAt_length {df : DataFrame} (hwf : df.WF) (k : String) :
    (df.rowAt k).length = df.cols.length := by
  unfold DataFrame.rowAt
  cases h : assocLookup df.rows k with
  | none => simp
  | some r =>
    simp only [Option.getD_some]
    exact hwf.2 (k, r) (assocLookup_mem h)

theorem dataFrameExt {a b : DataFrame} (hc : a.cols = b.cols)
    (hr : a.rows = b.rows) : a = b := by
  cases a
  cases b
  simp_all

theorem rowAt_eq_replicate {df : DataFrame} {k : String} (h : k ∉ df.keys) :
    df.rowAt k = List.replicate df.cols.length none := by
  unfold DataFrame.rowAt
  rw [(assocLookup_eq_none_iff df.rows k).2 h]
  rfl

theorem colsJoin_cons (d : DataFrame) (L : List DataFrame) :
    colsJoin (d :: L) = d.cols ++ colsJoin L := by
  simp [colsJoin]

theorem colsJoin_append (L1 L2 : List DataFrame) :
    colsJoin (L1 ++ L2) = colsJoin L1 ++ colsJoin L2 := by
  simp [colsJoin]

theorem bigRow_cons (d : DataFrame) (L : List DataFrame) (k : String) :
    bigRow (d :: L) k = d.rowAt k ++ bigRow L k := by
  simp [bigRow]

theorem bigRow_append (L1 L2 : List DataFrame) (k : String) :
    bigRow (L1 ++ L2) k = bigRow L1 k ++ bigRow L2 k := by
  simp [bigRow]

theorem bigRow_of_not_mem {L : List DataFrame} {k : String}
    (h : ∀ df ∈ L, k ∉ df.keys) :
    bigRow L k = List.replicate (colsJoin L).length none := by
  induction L with
  | nil => rfl
  | cons d rest ih =>
    rw [bigRow_cons, colsJoin_cons,
      rowAt_eq_replicate (h d (List.mem_cons_self d rest)),
      ih (fun df hdf => h df (List.mem_cons_of_mem d hdf)),
      List.length_append, List.replicate_add]

theorem bigRow_length {L : List DataFrame} (hwf : ∀ df ∈ L, df.WF)
    (k : String) : (bigRow L k).length = (colsJoin L).length := by
  induction L with
  | nil => rfl
  | cons d rest ih =>
    rw [bigRow_cons, colsJoin_cons, List.length_append, List.length_append,
      rowAt_length (hwf d (List.mem_cons_self d rest)),
      ih (fun df hdf => hwf df (List.mem_cons_of_mem d hdf))]

theorem keys_bigMergeFrame (L : List DataFrame) :
    (bigMergeFrame L).keys = finalKeys L := by
  show ((finalKeys L).map (fun k => (k, bigRow L k))).map Prod.fst = finalKeys L
  rw [List.map_map]
  exact (List.map_congr_left (fun k _ => rfl)).trans (List.map_id _)

theorem rowAt_bigMergeFrame {L : List DataFrame} (hL : L ≠ []) (k : String) :
    (bigMergeFrame L).rowAt k = bigRow L k := by
  unfold DataFrame.rowAt
  show (assocLookup ((finalKeys L).map (fun x => (x, bigRow L x))) k).getD
    (List.replicate (colsJoin L).length none) = bigRow L k
  rw [assocLookup_graph]
  split_ifs with hmem
  · rfl
  · rw [Option.getD_none]
    refine (bigRow_of_not_mem ?_).symm
    intro df hdf hk
    exact hmem ((mem_finalKeys hL).2 ⟨df, hdf, hk⟩)

theorem mergeOuter_bigMergeFrame {L1 L2 : List DataFrame}
    (h1 : L1 ≠ []) (h2 : L2 ≠ [])
    (hnd1 : ∀ df ∈ L1, df.keys.Nodup) (hnd2 : ∀ df ∈ L2, df.keys.Nodup) :
    mergeOuter (bigMergeFrame L1) (bigMergeFrame L2) =
      bigMergeFrame (L1 ++ L2) := by
  refine dataFrameExt ?_ ?_
  · show (bigMergeFrame L1).cols ++ (bigMergeFrame L2).cols =
      (bigMergeFrame (L1 ++ L2)).cols
    exact (colsJoin_append L1 L2).symm
  · show (joinIndex (bigMergeFrame L1).keys (bigMergeFrame L2).keys).map
        (fun k => (k, (bigMergeFrame L1).rowAt k ++ (bigMergeFrame L2).rowAt k)) =
      (finalKeys (L1 ++ L2)).map (fun k => (k, bigRow (L1 ++ L2) k))
    rw [keys_bigMergeFrame, keys_bigMergeFrame,
      joinIndex_finalKeys h1 h2 hnd1 hnd2]
    refine List.map_congr_left (fun k _ => ?_)
    rw [rowAt_bigMergeFrame h1, rowAt_bigMergeFrame h2, bigRow_append]

theorem bigMergeFrame_singleton {df : DataFrame} (hwf : df.WF) :
    bigMergeFrame [df] = df := by
  have hkeys : finalKeys [df] = df.keys := by
    rw [finalKeys_cons, if_pos]
    intro x hx
    rw [List.mem_singleton] at hx
    rw [hx]
  have hrow : ∀ p ∈ df.rows, (fun k => bigRow [df] k) p.1 = p.2 := by
    intro p hp
    show bigRow [df] p.1 = p.2
    have hat : df.rowAt p.1 = p.2 := by
      unfold DataFrame.rowAt
      rw [assocLookup_of_mem_nodup hwf.1
        (show (p.1, p.2) ∈ df.rows from hp)]
      rfl
    simp [bigRow, hat]
  refine dataFrameExt ?_ ?_
  · show colsJoin [df] = df.cols
    simp [colsJoin]
  · show (finalKeys [df]).map (fun k => (k, bigRow [df] k)) = df.rows
    rw [hkeys]
    exact graph_of_assoc df.rows (fun k => bigRow [df] k) hrow

theorem WF_keys_nodup {L : List DataFrame} (h : ∀ df ∈ L, df.WF) :
    ∀ df ∈ L, df.keys.Nodup :=
  fun df hdf => (h df hdf).1

theorem bigMergeFrame_WF {L : List DataFrame} (hwf : ∀ df ∈ L, df.WF) :
    (bigMergeFrame L).WF := by
  constructor
  · show ((bigMergeFrame L).keys).Nodup
    rw [keys_bigMergeFrame]
    exact finalKeys_nodup (WF_keys_nodup hwf)
  · intro r hr
    simp only [bigMergeFrame, List.mem_map] at hr
    obtain ⟨k, _, rfl⟩ := hr
    exact bigRow_length hwf k

theorem foldl_mergeOuter_bigMergeFrame :
    ∀ (rest : List DataFrame) (L : List DataFrame), L ≠ [] →
      (∀ df ∈ L, df.WF) → (∀ df ∈ rest, df.WF) →
      rest.foldl mergeOuter (bigMergeFrame L) = bigMergeFrame (L ++ rest)
  | [], L, _, _, _ => by simp
  | r :: rs, L, hL, hwfL, hwfrest => by
    have hrwf : r.WF := hwfrest r (List.mem_cons_self r rs)
    have hstep : mergeOuter (bigMergeFrame L) r = bigMergeFrame (L ++ [r]) := by
      conv_lhs => rw [← bigMergeFrame_singleton hrwf]
      exact mergeOuter_bigMergeFrame hL (by simp)
        (WF_keys_nodup hwfL) (by simpa using hrwf.1)
    have hwfLr : ∀ df ∈ L ++ [r], df.WF := by
      intro df hdf
      rcases List.mem_append.1 hdf with h | h
      · exact hwfL df h
      · rw [List.mem_singleton] at h
        rw [h]
        exact hrwf
    calc (r :: rs).foldl mergeOuter (bigMergeFrame L)
        = rs.foldl mergeOuter (mergeOuter (bigMergeFrame L) r) := rfl
      _ = rs.foldl mergeOuter (bigMergeFrame (L ++ [r])) := by rw [hstep]
      _ = bigMergeFrame ((L ++ [r]) ++ rs) :=
          foldl_mergeOuter_bigMergeFrame rs (L ++ [r]) (by simp) hwfLr
            (fun df hdf => hwfrest df (List.mem_cons_of_mem r hdf))
      _ = bigMergeFrame (L ++ r :: rs) := by
          rw [List.append_assoc]
          rfl

namespace Matrix

/-- Leaf-group bookkeeping for one reduction round: adjacent groups of
leaves merge, a trailing odd group passes through. -/
def pairGroups : List (List DataFrame) → List (List DataFrame)
  | [] => []
  | [g] => [g]
  | g1 :: g2 :: rest => (g1 ++ g2) :: pairGroups rest

theorem pairGroups_flatten : ∀ Gs : List (List DataFrame),
    (pairGroups Gs).flatten = Gs.flatten
  | [] => rfl
  | [g] => rfl
  | g1 :: g2 :: rest => by
    simp [pairGroups, pairGroups_flatten rest]

theorem pairGroups_length : ∀ Gs : List (List DataFrame),
    (pairGroups Gs).length = (Gs.length + 1) / 2
  | [] => rfl
  | [_] => by simp [pairGroups]
  | _ :: _ :: rest => by
    simp [pairGroups, pairGroups_length rest]
    omega

theorem pairGroups_ne_nil : ∀ {Gs : List (List DataFrame)},
    (∀ g ∈ Gs, g ≠ []) → ∀ g ∈ pairGroups Gs, g ≠ []
  | [], _, g, hg => by simp [pairGroups] at hg
  | [g0], h, g, hg => by
    simp [pairGroups] at hg
    rw [hg]
    exact h g0 (List.mem_singleton_self g0)
  | g1 :: g2 :: rest, h, g, hg => by
    rcases List.mem_cons.1 hg with hg | hg
    · rw [hg]
      intro hemp
      rcases List.append_eq_nil.1 hemp with ⟨he1, _⟩
      exact h g1 (List.mem_cons_self _ _) he1
    · exact pairGroups_ne_nil
        (fun g' hg' => h g' (List.mem_cons_of_mem _ (List.mem_cons_of_mem _ hg')))
        g hg

theorem pairGroups_WF : ∀ {Gs : List (List DataFrame)},
    (∀ g ∈ Gs, ∀ df ∈ g, df.WF) → ∀ g ∈ pairGroups Gs, ∀ df ∈ g, df.WF
  | [], _, g, hg => by simp [pairGroups] at hg
  | [g0], h, g, hg => by
    simp [pairGroups] at hg
    rw [hg]
    exact h g0 (List.mem_singleton_self g0)
  | g1 :: g2 :: rest, h, g, hg => by
    rcases List.mem_cons.1 hg with hg | hg
    · rw [hg]
      intro df hdf
      rcases List.mem_append.1 hdf with hd | hd
      · exact h g1 (List.mem_cons_self _ _) df hd
      · exact h g2 (List.mem_cons_of_mem _ (List.mem_cons_self _ _)) df hd
    · exact pairGroups_WF
        (fun g' hg' => h g' (List.mem_cons_of_mem _ (List.mem_cons_of_mem _ hg')))
        g hg

theorem pairRound_map_bigMergeFrame : ∀ (Gs : List (List DataFrame)),
    (∀ g ∈ Gs, g ≠ []) → (∀ g ∈ Gs, ∀ df ∈ g, df.WF) →
    pairRound (Gs.map bigMergeFrame) = (pairGroups Gs).map bigMergeFrame
  | [], _, _ => rfl
  | [_], _, _ => rfl
  | g1 :: g2 :: rest, hne, hwf => by
    show mergeOuter (bigMergeFrame g1) (bigMergeFrame g2) ::
        pairRound (rest.map bigMergeFrame) =
      bigMergeFrame (g1 ++ g2) :: (pairGroups rest).map bigMergeFrame
    rw [mergeOuter_bigMergeFrame (hne g1 (List.mem_cons_self _ _))
        (hne g2 (List.mem_cons_of_mem _ (List.mem_cons_self _ _)))
        (WF_keys_nodup (hwf g1 (List.mem_cons_self _ _)))
        (WF_keys_nodup (hwf g2 (List.mem_cons_of_mem _ (List.mem_cons_self _ _)))),
      pairRound_map_bigMergeFrame rest
        (fun g hg => hne g (List.mem_cons_of_mem _ (List.mem_cons_of_mem _ hg)))
        (fun g hg => hwf g (List.mem_cons_of_mem _ (List.mem_cons_of_mem _ hg)))]

theorem reduceRounds_map_bigMergeFrame (Gs : List (List DataFrame))
    (hne0 : Gs ≠ []) (hne : ∀ g ∈ Gs, g ≠ [])
    (hwf : ∀ g ∈ Gs, ∀ df ∈ g, df.WF) :
    reduceRounds (Gs.map bigMergeFrame) = [bigMergeFrame Gs.flatten] := by
  rw [reduceRounds]
  rw [List.length_map]
  by_cases hlen : 1 < Gs.length
  · rw [if_pos hlen, pairRound_map_bigMergeFrame Gs hne hwf,
      reduceRounds_map_bigMergeFrame (pairGroups Gs)
        (by
          intro hcontra
          have := pairGroups_length Gs
          rw [hcontra] at this
          simp at this
          omega)
        (pairGroups_ne_nil hne) (pairGroups_WF hwf),
      pairGroups_flatten]
  · rw [if_neg hlen]
    obtain ⟨g, rfl⟩ : ∃ g, Gs = [g] := by
      match Gs, hne0 with
      | [g], _ => exact ⟨g, rfl⟩
      | g1 :: g2 :: rest, _ =>
        exfalso
        apply hlen
        simp only [List.length_cons]
        omega
    simp
  termination_by Gs.length
  decreasing_by
    rw [pairGroups_length]
    omega

theorem flatten_map_singleton {α : Type} : ∀ l : List α,
    (l.map (fun x => [x])).flatten = l
  | [] => rfl
  | x :: rest => by simp [flatten_map_singleton rest]

theorem reduceRounds_closed {dfs : List DataFrame} (hne : dfs ≠ [])
    (hwf : ∀ df ∈ dfs, df.WF) :
    reduceRounds dfs = [bigMergeFrame dfs] := by
  have h1 : (dfs.map (fun d => [d])).map bigMergeFrame = dfs := by
    rw [List.map_map]
    calc dfs.map (bigMergeFrame ∘ fun d => [d])
        = dfs.map id :=
          List.map_congr_left (fun d hd => bigMergeFrame_singleton (hwf d hd))
      _ = dfs := List.map_id dfs
  have h2 : (dfs.map (fun d => [d])).flatten = dfs :=
    flatten_map_singleton dfs
  have hmain := reduceRounds_map_bigMergeFrame (dfs.map (fun d => [d]))
    (by
      intro hcontra
      exact hne (List.map_eq_nil_iff.1 hcontra))
    (by
      intro g hg
      obtain ⟨d, _, rfl⟩ := List.mem_map.1 hg
      simp)
    (by
      intro g hg
      obtain ⟨d, hd, rfl⟩ := List.mem_map.1 hg
      intro df hdf
      rw [List.mem_singleton] at hdf
      rw [hdf]
      exact hwf d hd)
  rw [h1, h2] at hmain
  exact hmain

theorem seq_fold_closed {d0 : DataFrame} {rest : List DataFrame}
    (hwf : ∀ df ∈ d0 :: rest, df.WF) :
    rest.foldl mergeOuter d0 = bigMergeFrame (d0 :: rest) := by
  have h0 : d0 = bigMergeFrame [d0] :=
    (bigMergeFrame_singleton (hwf d0 (List.mem_cons_self _ _))).symm
  calc rest.foldl mergeOuter d0
      = rest.foldl mergeOuter (bigMergeFrame [d0]) := by rw [← h0]
    _ = bigMergeFrame ([d0] ++ rest) :=
        foldl_mergeOuter_bigMergeFrame rest [d0] (by simp)
          (by
            intro df hdf
            rw [List.mem_singleton] at hdf
            rw [hdf]
            exact hwf d0 (List.mem_cons_self _ _))
          (fun df hdf => hwf df (List.mem_cons_of_mem _ hdf))
    _ = bigMergeFrame (d0 :: rest) := rfl

end Matrix

theorem mem_colsJoin {L : List DataFrame} {c : String} :
    c ∈ colsJoin L ↔ ∃ df ∈ L, c ∈ df.cols := by
  simp [colsJoin, List.mem_flatten]

theorem keys_mem_of_lookup {df : DataFrame} {k : String}
    {r : List (Option Int)} (h : assocLookup df.rows k = some r) :
    k ∈ df.keys :=
  List.mem_map.2 ⟨(k, r), assocLookup_mem h, rfl⟩

theorem assocLookup_colsJoin_bigRow :
    ∀ (L : List DataFrame) (T : DataFrame) (s k : String)
      (r : List (Option Int)),
      T ∈ L → (∀ df ∈ L, df.WF) → (colsJoin L).Nodup →
      T.cols = [s] → assocLookup T.rows k = some r →
      assocLookup ((colsJoin L).zip (bigRow L k)) s = some (r.headD none)
  | [], T, _, _, _, hT, _, _, _, _ => absurd hT (List.not_mem_nil T)
  | df :: rest, T, s, k, r, hT, hwf, hnodup, hTs, hr => by
    have hdfwf : df.WF := hwf df (List.mem_cons_self _ _)
    have hzipsplit : ((colsJoin (df :: rest)).zip (bigRow (df :: rest) k)) =
        df.cols.zip (df.rowAt k) ++ (colsJoin rest).zip (bigRow rest k) := by
      rw [colsJoin_cons, bigRow_cons]
      exact zip_append_of_length_eq _ _ (rowAt_length hdfwf k).symm
    rw [hzipsplit]
    rcases List.mem_cons.1 hT with rfl | hTrest
    · -- the target table is the head of the leaf list.
      have hrlen : r.length = T.cols.length :=
        hdfwf.2 (k, r) (assocLookup_mem hr)
      rw [hTs] at hrlen
      obtain ⟨v, rfl⟩ : ∃ v, r = [v] := by
        match r, hrlen with
        | [v], _ => exact ⟨v, rfl⟩
      have hrow : T.rowAt k = [v] := by
        unfold DataFrame.rowAt
        rw [hr]
        rfl
      apply assocLookup_append_left
      rw [hTs, hrow]
      show (if s = s then some v else assocLookup [] s) = some ([v].headD none)
      rw [if_pos rfl]
      rfl
    · -- the target table sits in the tail; its column is not the head's.
      have hscols : s ∈ colsJoin rest :=
        mem_colsJoin.2 ⟨T, hTrest, by rw [hTs]; exact List.mem_singleton_self s⟩
      have hsnot : s ∉ df.cols := by
        intro hsdf
        rw [colsJoin_cons] at hnodup
        exact (List.disjoint_of_nodup_append hnodup) hsdf hscols
      rw [assocLookup_append_right _ (by
        intro hmem
        obtain ⟨p, hp, rfl⟩ := List.mem_map.1 hmem
        exact hsnot (fst_mem_of_mem_zip hp))]
      exact assocLookup_colsJoin_bigRow rest T s k r hTrest
        (fun x hx => hwf x (List.mem_cons_of_mem _ hx))
        ((List.nodup_append.1 (colsJoin_cons df rest ▸ hnodup)).2.1) hTs hr

theorem cellAt_bigMergeFrame {L : List DataFrame} {T : DataFrame}
    {s k : String} {r : List (Option Int)}
    (hT : T ∈ L) (hwf : ∀ df ∈ L, df.WF) (hnodup : (colsJoin L).Nodup)
    (hTs : T.cols = [s]) (hr : assocLookup T.rows k = some r) :
    (bigMergeFrame L).cellAt k s = some (r.headD none) := by
  have hL : L ≠ [] := by
    rintro rfl
    exact List.not_mem_nil T hT
  have hkmem : k ∈ finalKeys L :=
    (mem_finalKeys hL).2 ⟨T, hT, keys_mem_of_lookup hr⟩
  show (assocLookup ((finalKeys L).map (fun x => (x, bigRow L x))) k).bind
    (fun row => assocLookup ((colsJoin L).zip row) s) = some (r.headD none)
  rw [assocLookup_graph, if_pos hkmem]
  exact assocLookup_colsJoin_bigRow L T s k r hT hwf hnodup hTs hr

theorem selectCols_rows_lookup (df : DataFrame) (cs : List String)
    (k : String) :
    assocLookup (df.selectCols cs).rows k =
      (assocLookup df.rows k).map
        (fun r => cs.map (fun c => (assocLookup (df.cols.zip r) c).getD none)) :=
  assocLookup_map_pair df.rows
    (fun p => cs.map (fun c => (assocLookup (df.cols.zip p.2) c).getD none)) k

theorem cellAt_selectCols {df : DataFrame} {cs : List String} {k c : String}
    (hc : c ∈ cs) :
    (df.selectCols cs).cellAt k c =
      (assocLookup df.rows k).map
        (fun r => (assocLookup (df.cols.zip r) c).getD none) := by
  show (assocLookup (df.selectCols cs).rows k).bind
      (fun row => assocLookup (cs.zip row) c) = _
  rw [selectCols_rows_lookup]
  cases h : assocLookup df.rows k with
  | none => rfl
  | some r =>
    show assocLookup (cs.zip (cs.map
      (fun c => (assocLookup (df.cols.zip r) c).getD none))) c = _
    rw [zip_graph, assocLookup_graph, if_pos hc]
    rfl

theorem cellAt_selectCols_eq {df : DataFrame} {cs : List String} {k c : String}
    (hc : c ∈ cs) (hcol : c ∈ df.cols) (hwf : df.WF) :
    (df.selectCols cs).cellAt k c = df.cellAt k c := by
  rw [cellAt_selectCols hc]
  show _ = (assocLookup df.rows k).bind (fun r => assocLookup (df.cols.zip r) c)
  cases h : assocLookup df.rows k with
  | none => rfl
  | some r =>
    have hlen : r.length = df.cols.length := hwf.2 (k, r) (assocLookup_mem h)
    obtain ⟨x, hx⟩ := Option.isSome_iff_exists.1
      (assocLookup_zip_isSome hcol hlen)
    show some ((assocLookup (df.cols.zip r) c).getD none) =
      assocLookup (df.cols.zip r) c
    rw [hx]
    rfl

theorem finalKeys_length_shared {L : List DataFrame} (hne : L ≠ [])
    (hnd : ∀ df ∈ L, df.keys.Nodup) {K : Finset String}
    (hK : ∀ df ∈ L, df.keys.toFinset = K) :
    (finalKeys L).length = K.card := by
  have htf : (finalKeys L).toFinset = K := by
    rw [finalKeys_toFinset hne]
    ext x
    simp only [List.mem_toFinset, mem_keysUnionList]
    constructor
    · rintro ⟨df, hdf, hk⟩
      rw [← hK df hdf]
      exact List.mem_toFinset.2 hk
    · intro hx
      obtain ⟨d, hd⟩ := List.exists_mem_of_ne_nil L hne
      refine ⟨d, hd, ?_⟩
      rw [← List.mem_toFinset, hK d hd]
      exact hx
  rw [← htf]
  exact (List.toFinset_card_of_nodup (finalKeys_nodup hnd)).symm

theorem colsJoin_length_single {L : List DataFrame}
    (h : ∀ df ∈ L, df.cols.length = 1) : (colsJoin L).length = L.length := by
  induction L with
  | nil => rfl
  | cons d rest ih =>
    rw [colsJoin_cons, List.length_append, List.length_cons,
      h d (List.mem_cons_self _ _),
      ih (fun df hdf => h df (List.mem_cons_of_mem _ hdf))]
    omega

theorem selectCols_shape (df : DataFrame) (cs : List String) :
    (df.selectCols cs).shape = (df.rows.length, cs.length) := by
  simp [DataFrame.selectCols, DataFrame.shape]

theorem selectCols_keys (df : DataFrame) (cs : List String) :
    (df.selectCols cs).keys = df.keys := by
  show ((df.rows.map _).map Prod.fst) = df.rows.map Prod.fst
  rw [List.map_map]
  exact List.map_congr_left (fun p _ => rfl)

theorem bigMergeFrame_shape (L : List DataFrame) :
    (bigMergeFrame L).shape = ((finalKeys L).length, (colsJoin L).length) := by
  simp [bigMergeFrame, DataFrame.shape]

namespace Matrix

theorem join_seq_closed {d0 : DataFrame} {rest : List DataFrame}
    (hwf : ∀ df ∈ d0 :: rest, df.WF) :
    join_dataframes_sequentially (d0 :: rest) =
      if (bigMergeFrame (d0 :: rest)).shape = (d0.shape.1, rest.length + 1)
      then Except.ok (bigMergeFrame (d0 :: rest))
      else Except.error (MergeError.shapeMismatch
        (bigMergeFrame (d0 :: rest)).shape (d0.shape.1, rest.length + 1)) := by
  show (if (rest.foldl mergeOuter d0).shape = (d0.shape.1, rest.length + 1)
    then Except.ok (rest.foldl mergeOuter d0)
    else Except.error (MergeError.shapeMismatch
      (rest.foldl mergeOuter d0).shape (d0.shape.1, rest.length + 1))) = _
  rw [seq_fold_closed hwf]

theorem join_rec_closed {d0 : DataFrame} {rest : List DataFrame}
    (hwf : ∀ df ∈ d0 :: rest, df.WF) :
    join_dataframes_recursively (d0 :: rest) =
      if ((bigMergeFrame (d0 :: rest)).selectCols
            ((bigMergeFrame (d0 :: rest)).cols.insertionSort keyLe)).shape =
          (d0.shape.1, rest.length + 1)
      then Except.ok ((bigMergeFrame (d0 :: rest)).selectCols
            ((bigMergeFrame (d0 :: rest)).cols.insertionSort keyLe))
      else Except.error (MergeError.shapeMismatch
        ((bigMergeFrame (d0 :: rest)).selectCols
            ((bigMergeFrame (d0 :: rest)).cols.insertionSort keyLe)).shape
        (d0.shape.1, rest.length + 1)) := by
  have hred := reduceRounds_closed (List.cons_ne_nil d0 rest) hwf
  simp only [join_dataframes_recursively, hred]
  rfl

theorem main_rec_closed {d0 : DataFrame} {rest : List DataFrame}
    (hwf : ∀ df ∈ d0 :: rest, df.WF) :
    MainModule.join_dataframes_recursively_main (d0 :: rest) =
      if ({ bigMergeFrame (d0 :: rest) with
            cols := (bigMergeFrame (d0 :: rest)).cols.insertionSort keyLe
          } : DataFrame).shape = (d0.shape.1, rest.length + 1)
      then Except.ok ({ bigMergeFrame (d0 :: rest) with
            cols := (bigMergeFrame (d0 :: rest)).cols.insertionSort keyLe })
      else Except.error (MergeError.shapeMismatch
        ({ bigMergeFrame (d0 :: rest) with
            cols := (bigMergeFrame (d0 :: rest)).cols.insertionSort keyLe
          } : DataFrame).shape (d0.shape.1, rest.length + 1)) := by
  have hred := reduceRounds_closed (List.cons_ne_nil d0 rest) hwf
  simp only [MainModule.join_dataframes_recursively_main, hred]
  rfl

theorem pairRoundOps_eq : ∀ l : List DataFrame, pairRoundOps l = l.length / 2
  | [] => rfl
  | [_] => by simp [pairRoundOps]
  | _ :: _ :: rest => by
    simp [pairRoundOps, pairRoundOps_eq rest]
    omega

theorem reduceRoundsOps_eq (dfs : List DataFrame) (hne : dfs ≠ []) :
    reduceRoundsOps dfs = dfs.length - 1 := by
  have hpos : 0 < dfs.length := List.length_pos.2 hne
  rw [reduceRoundsOps]
  by_cases h : 1 < dfs.length
  · have hplen : (pairRound dfs).length = (dfs.length + 1) / 2 :=
      pairRound_length dfs
    rw [if_pos h, pairRoundOps_eq,
      reduceRoundsOps_eq (pairRound dfs)
        (by
          rw [← List.length_pos, hplen]
          omega),
      hplen]
    omega
  · rw [if_neg h]
    omega
  termination_by dfs.length
  decreasing_by
    rw [pairRound_length]
    omega

theorem reduceRounds_length_one (dfs : List DataFrame) (hne : dfs ≠ []) :
    (reduceRounds dfs).length = 1 := by
  have hpos : 0 < dfs.length := List.length_pos.2 hne
  rw [reduceRounds]
  by_cases h : 1 < dfs.length
  · have hplen : (pairRound dfs).length = (dfs.length + 1) / 2 :=
      pairRound_length dfs
    rw [if_pos h]
    exact reduceRounds_length_one (pairRound dfs)
      (by
        rw [← List.length_pos, hplen]
        omega)
  · rw [if_neg h]
    omega
  termination_by dfs.length
  decreasing_by
    rw [pairRound_length]
    omega

end Matrix

/-- The row key of the row that `dataframe.sample(axis=0)` drew, with the
draw made explicit as a row index. -/
def sampledGene (df : DataFrame) (i : Nat) : String :=
  (df.rows.getD i ("", [])).1

/-- The value in the drawn row's single column
(`_sample.values[0][0]`). -/
def sampledValue (df : DataFrame) (i : Nat) : Option Int :=
  (df.rows.getD i ("", [])).2.headD none

theorem pyNeq_false_iff {v c : Option Int} (hv : v.isSome) :
    Matrix.pyNeq v c = false ↔ c = v := by
  obtain ⟨n, rfl⟩ := Option.isSome_iff_exists.1 hv
  cases c with
  | none => simp [Matrix.pyNeq]
  | some m =>
    simp only [Matrix.pyNeq, decide_eq_false_iff_not, not_not,
      Option.some.injEq]
    exact ⟨fun h => h.symm, fun h => h.symm⟩

theorem pyNeq_true_ne {v c : Option Int} (hv : v.isSome)
    (h : Matrix.pyNeq v c = true) : v ≠ c := by
  obtain ⟨n, rfl⟩ := Option.isSome_iff_exists.1 hv
  cases c with
  | none => simp
  | some m =>
    simp only [Matrix.pyNeq, decide_eq_true_eq] at h
    simp [h]

theorem rows_getD_mem {df : DataFrame} {i : Nat} (h : i < df.rows.length) :
    df.rows.getD i ("", []) ∈ df.rows := by
  rw [List.getD_eq_getElem _ _ h]
  exact List.getElem_mem _

/-- One coherence-loop iteration, characterized: under the data-model
hypotheses it looks the sampled coordinate up and fails exactly when the
Python `!=` comparison of the two values is true. -/
theorem coherenceOne_eq {merged df : DataFrame} {i : Nat}
    (hpick : i < df.rows.length)
    (hcols : df.cols.length = 1)
    (hvals : ∀ kv ∈ df.rows, kv.2.length = 1 ∧ (kv.2.headD none).isSome)
    (hcoord : (merged.cellAt (sampledGene df i) (Matrix.sampleOf df)).isSome) :
    ∃ cell, merged.cellAt (sampledGene df i) (Matrix.sampleOf df) = some cell ∧
      (sampledValue df i).isSome ∧
      Matrix.coherenceOne merged df i =
        (if Matrix.pyNeq (sampledValue df i) cell then
          Except.error (MergeError.coherence (Matrix.sampleOf df)
            (sampledGene df i) (sampledValue df i) cell)
        else Except.ok ()) := by
  obtain ⟨s0, hs0⟩ : ∃ s0, df.cols = [s0] := by
    cases hcl : df.cols with
    | nil =>
      rw [hcl] at hcols
      simp at hcols
    | cons s0 tl =>
      cases tl with
      | nil => exact ⟨s0, rfl⟩
      | cons a b =>
        rw [hcl] at hcols
        simp at hcols
  cases hg : df.rows.get? i with
  | none =>
    rw [List.get?_eq_none] at hg
    omega
  | some p =>
    obtain ⟨g0, r0⟩ := p
    have hmem : (g0, r0) ∈ df.rows := List.get?_mem hg
    obtain ⟨hr0len, hr0some⟩ := hvals (g0, r0) hmem
    obtain ⟨v0, rfl⟩ : ∃ v0, r0 = [v0] := by
      cases hrl : r0 with
      | nil =>
        rw [hrl] at hr0len
        simp at hr0len
      | cons v0 tl =>
        cases tl with
        | nil => exact ⟨v0, rfl⟩
        | cons a b =>
          rw [hrl] at hr0len
          simp at hr0len
    have hgene : sampledGene df i = g0 := by
      unfold sampledGene
      rw [List.getD_eq_getD_get?, hg]
      rfl
    have hval : sampledValue df i = v0 := by
      unfold sampledValue
      rw [List.getD_eq_getD_get?, hg]
      rfl
    have hsample : Matrix.sampleOf df = s0 := by
      rw [Matrix.sampleOf, hs0]
      rfl
    rw [hgene, hsample] at hcoord
    rw [hgene, hsample, hval]
    obtain ⟨cell, hcell⟩ := Option.isSome_iff_exists.1 hcoord
    refine ⟨cell, hcell, hr0some, ?_⟩
    simp only [Matrix.coherenceOne, hg, hs0, List.head?_cons, hcell]

/-! A tiny heap of Python list objects, to make the mergers' aliasing
behavior explicit: the caller passes a reference to its list object,
`dfs = dfs.copy()` allocates a fresh object and rebinds the local name,
`pop(0)` mutates only the object the local name points to, and
`dfs = merged_dfs` rebinds the local name to the freshly built per-round
list. -/

/-- The heap: one Python list object of tables per reference. -/
structure PyHeap where
  heap : List (List DataFrame)
deriving DecidableEq, Repr

/-- Dereference a list object (an invalid reference reads as empty). -/
def readList (s : PyHeap) (r : Nat) : List DataFrame := s.heap.getD r []

/-- Overwrite a list object in place. -/
def writeList (s : PyHeap) (r : Nat) (v : List DataFrame) : PyHeap :=
  ⟨s.heap.set r v⟩

/-- Allocate a fresh list object, returning the heap and the reference. -/
def allocList (s : PyHeap) (v : List DataFrame) : PyHeap × Nat :=
  (⟨s.heap ++ [v]⟩, s.heap.length)

theorem getD_set_ne {α : Type} : ∀ (l : List α) (i j : Nat) (v d : α),
    i ≠ j → (l.set i v).getD j d = l.getD j d
  | [], _, _, _, _, _ => by simp
  | _ :: _, 0, 0, _, _, h => absurd rfl h
  | x :: xs, 0, j + 1, v, d, _ => by simp [List.set]
  | x :: xs, i + 1, 0, v, d, _ => by simp [List.set]
  | x :: xs, i + 1, j + 1, v, d, h => by
    show (x :: xs.set i v).getD (j + 1) d = (x :: xs).getD (j + 1) d
    rw [List.getD_cons_succ, List.getD_cons_succ]
    exact getD_set_ne xs i j v d (fun hh => h (by rw [hh]))

theorem readList_allocList (s : PyHeap) (v : List DataFrame) :
    readList (allocList s v).1 (allocList s v).2 = v := by
  show (s.heap ++ [v]).getD s.heap.length [] = v
  rw [List.getD_eq_getElem?_getD, List.getElem?_concat_length]
  rfl

theorem readList_alloc_preserved (s : PyHeap) (v : List DataFrame)
    (r : Nat) (h : r < s.heap.length) :
    readList (allocList s v).1 r = readList s r := by
  show (s.heap ++ [v]).getD r [] = s.heap.getD r []
  rw [List.getD_eq_getElem?_getD, List.getD_eq_getElem?_getD,
    List.getElem?_append_left h]

theorem readList_writeList_ne (s : PyHeap) (r1 r2 : Nat)
    (v : List DataFrame) (h : r1 ≠ r2) :
    readList (writeList s r1 v) r2 = readList s r2 :=
  getD_set_ne s.heap r1 r2 v [] h

theorem length_writeList (s : PyHeap) (r : Nat) (v : List DataFrame) :
    (writeList s r v).heap.length = s.heap.length := by
  simp [writeList]

namespace Matrix

/-- The recursive merger's `while len(dfs) > 1` loop on the heap: each
round the inner loop pops every element off the current list (leaving it
empty) while appending merges to the fresh `merged_dfs` object, and the
local name is rebound to that new object. -/
def reduceRoundsState (s : PyHeap) (cur : Nat) : PyHeap × Nat :=
  if 1 < (readList s cur).length then
    reduceRoundsState
      (allocList (writeList s cur []) (pairRound (readList s cur))).1
      (allocList (writeList s cur []) (pairRound (readList s cur))).2
  else (s, cur)
termination_by (readList s cur).length
decreasing_by
  rw [readList_allocList, pairRound_length]
  omega

theorem reduceRoundsState_frame (s : PyHeap) (cur r : Nat)
    (hr : r < s.heap.length) (hne : r ≠ cur) :
    readList (reduceRoundsState s cur).1 r = readList s r := by
  rw [reduceRoundsState]
  by_cases h : 1 < (readList s cur).length
  · rw [if_pos h]
    have hr1 : r < (writeList s cur []).heap.length := by
      rw [length_writeList]
      exact hr
    have hr2 : r < (allocList (writeList s cur [])
        (pairRound (readList s cur))).1.heap.length := by
      show r < ((writeList s cur []).heap ++ _).length
      rw [List.length_append]
      omega
    have hne2 : r ≠ (allocList (writeList s cur [])
        (pairRound (readList s cur))).2 := by
      show r ≠ (writeList s cur []).heap.length
      rw [length_writeList]
      omega
    rw [reduceRoundsState_frame _ _ r hr2 hne2,
      readList_alloc_preserved _ _ r hr1,
      readList_writeList_ne s cur r [] (fun hh => hne hh.symm)]
  · rw [if_neg h]
  termination_by (readList s cur).length
  decreasing_by
    rw [readList_allocList, pairRound_length]
    omega

/-- `mergecounts.utils.matrix.join_dataframes_sequentially` on the heap:
it copies the caller's list and then only iterates over the copy. -/
def join_sequentially_state (s : PyHeap) (dfsRef : Nat) :
    PyHeap × Except MergeError DataFrame :=
  (
    (allocList s (readList s dfsRef)).1,
    join_dataframes_sequentially
      (readList (allocList s (readList s dfsRef)).1
        (allocList s (readList s dfsRef)).2)
  )

/-- `mergecounts.utils.matrix.join_dataframes_recursively` on the heap:
it copies the caller's list, then runs the destructive reduction loop on
the copy and the per-round lists. -/
def join_recursively_state (s : PyHeap) (dfsRef : Nat) :
    PyHeap × Except MergeError DataFrame :=
  match readList (allocList s (readList s dfsRef)).1
      (allocList s (readList s dfsRef)).2 with
  | [] => ((allocList s (readList s dfsRef)).1,
      Except.error MergeError.emptyInput)
  | d0 :: rest =>
    match readList
        (reduceRoundsState (allocList s (readList s dfsRef)).1
          (allocList s (readList s dfsRef)).2).1
        (reduceRoundsState (allocList s (readList s dfsRef)).1
          (allocList s (readList s dfsRef)).2).2 with
    | [r] =>
      ((reduceRoundsState (allocList s (readList s dfsRef)).1
          (allocList s (readList s dfsRef)).2).1,
        if (r.selectCols (r.cols.insertionSort keyLe)).shape =
            (d0.shape.1, (d0 :: rest).length)
        then Except.ok (r.selectCols (r.cols.insertionSort keyLe))
        else Except.error (MergeError.shapeMismatch
          (r.selectCols (r.cols.insertionSort keyLe)).shape
          (d0.shape.1, (d0 :: rest).length)))
    | _ =>
      ((reduceRoundsState (allocList s (readList s dfsRef)).1
          (allocList s (readList s dfsRef)).2).1,
        Except.error MergeError.mergeArithmetic)

end Matrix

/-! The claims. -/

/-- Claim C8: for the empty input sequence both the sequential and the
recursive merger raise the empty-input error (`ValueError`) immediately,
before any join is performed or any partial result produced. -/
theorem empty_input_raises_in_both_mergers :
    Matrix.join_dataframes_sequentially [] =
      Except.error MergeError.emptyInput ∧
    Matrix.join_dataframes_recursively [] =
      Except.error MergeError.emptyInput :=
  ⟨rfl, rfl⟩

/-- Claim C3 (amended): for every nonempty list of N input tables the
recursive merger performs exactly N − 1 pairwise outer-join operations
across all reduction rounds, and its internal consistency check — that
exactly one table remains after the rounds, the condition whose failure
raises the fatal "Math was incorrect!" error — always passes.  The
`num_iterations_needed` bookkeeping value is only the progress-bar total
of per-round `ceil(n/2)` list operations (joins plus lone pass-throughs),
not a verified join count. -/
theorem recursive_round_count_amended (dfs : List DataFrame)
    (hne : dfs ≠ []) :
    Matrix.reduceRoundsOps dfs = dfs.length - 1 ∧
    (Matrix.reduceRounds dfs).length = 1 :=
  ⟨Matrix.reduceRoundsOps_eq dfs hne, Matrix.reduceRounds_length_one dfs hne⟩

/-- Claim C3 witness: three concrete one-gene tables; the recursive merger
performs exactly 2 = 3 − 1 pairwise joins and ends with a single table. -/
theorem recursive_round_count_witness :
    ([⟨["a"], [("g", [some 1])]⟩, ⟨["b"], [("g", [some 2])]⟩,
      ⟨["c"], [("g", [some 3])]⟩] : List DataFrame) ≠ [] ∧
    (Matrix.reduceRoundsOps
        [⟨["a"], [("g", [some 1])]⟩, ⟨["b"], [("g", [some 2])]⟩,
         ⟨["c"], [("g", [some 3])]⟩] =
      ([⟨["a"], [("g", [some 1])]⟩, ⟨["b"], [("g", [some 2])]⟩,
        ⟨["c"], [("g", [some 3])]⟩] : List DataFrame).length - 1 ∧
    (Matrix.reduceRounds
        [⟨["a"], [("g", [some 1])]⟩, ⟨["b"], [("g", [some 2])]⟩,
         ⟨["c"], [("g", [some 3])]⟩]).length = 1) :=
  ⟨by decide, recursive_round_count_amended _ (by decide)⟩

/-- Claim C3 counterexample: the code's `num_iterations_needed`
bookkeeping value at N = 3 is 3, not N − 1 = 2, while the merger actually
performs 2 pairwise joins, so the bookkeeping does not verify the N − 1
join-count identity (and nothing in the code compares the two). -/
theorem recursive_round_count_counterexample :
    Matrix.numIterationsNeeded 3 = 3 ∧
    Matrix.reduceRoundsOps
      [⟨["a"], [("g", [some 1])]⟩, ⟨["b"], [("g", [some 2])]⟩,
       ⟨["c"], [("g", [some 3])]⟩] = 2 ∧
    Matrix.numIterationsNeeded 3 ≠ 3 - 1 := by
  have h1 : Matrix.numIterationsNeeded 3 = 3 := by
    rw [Matrix.numIterationsNeeded]
    norm_num
    rw [Matrix.numIterationsNeeded]
    norm_num
    rw [Matrix.numIterationsNeeded]
    norm_num
  refine ⟨h1, ?_, by rw [h1]; omega⟩
  rw [Matrix.reduceRoundsOps]
  norm_num [Matrix.pairRound, Matrix.pairRoundOps]
  rw [Matrix.reduceRoundsOps]
  norm_num [Matrix.pairRound, Matrix.pairRoundOps]
  rw [Matrix.reduceRoundsOps]
  norm_num [Matrix.pairRound, Matrix.pairRoundOps]

/-- Claim C9: for a non-empty batch, the table loader fails (with the
shape-mismatch error) exactly when some loaded table's row count differs
from the first table's; otherwise it returns one table per input, each
labeled with its sample identifier as its single column name. -/
theorem read_counts_shape_validation (c0 : String × List (String × Int))
    (rest : List (String × List (String × Int))) :
    ((∃ e, Matrix.read_counts (c0 :: rest) none = Except.error e) ↔
      ∃ t ∈ (c0 :: rest).map Matrix.buildTable,
        t.rows.length ≠ (Matrix.buildTable c0).rows.length) ∧
    (Matrix.read_counts (c0 :: rest) none =
        Except.ok ((c0 :: rest).map Matrix.buildTable) ↔
      ∀ t ∈ (c0 :: rest).map Matrix.buildTable,
        t.rows.length = (Matrix.buildTable c0).rows.length) ∧
    ((c0 :: rest).map Matrix.buildTable).length = (c0 :: rest).length ∧
    (∀ c ∈ c0 :: rest, (Matrix.buildTable c).cols = [c.1]) := by
  have hshape : ∀ t : DataFrame, t ∈ (c0 :: rest).map Matrix.buildTable →
      (t.shape = (Matrix.buildTable c0).shape ↔
        t.rows.length = (Matrix.buildTable c0).rows.length) := by
    intro t ht
    obtain ⟨c, _, rfl⟩ := List.mem_map.1 ht
    simp [Matrix.buildTable, DataFrame.shape, Prod.ext_iff]
  have hunfold : Matrix.read_counts (c0 :: rest) none =
      match ((c0 :: rest).map Matrix.buildTable).find?
          (fun t => decide (t.shape ≠ (Matrix.buildTable c0).shape)) with
      | some t => Except.error (MergeError.shapeMismatch t.shape
          (Matrix.buildTable c0).shape)
      | none => Except.ok ((c0 :: rest).map Matrix.buildTable) := rfl
  rw [hunfold]
  refine ⟨?_, ?_, by simp, fun c _ => rfl⟩
  · cases hf : ((c0 :: rest).map Matrix.buildTable).find?
        (fun t => decide (t.shape ≠ (Matrix.buildTable c0).shape)) with
    | some t =>
      have hp : t.shape ≠ (Matrix.buildTable c0).shape := by
        simpa using List.find?_some hf
      have hm := List.mem_of_find?_eq_some hf
      constructor
      · intro _
        exact ⟨t, hm, fun hlen => hp ((hshape t hm).2 hlen)⟩
      · intro _
        exact ⟨_, rfl⟩
    | none =>
      constructor
      · rintro ⟨e, he⟩
        exact absurd he (by simp)
      · rintro ⟨t, hm, hlen⟩
        exfalso
        have hno := List.find?_eq_none.1 hf t hm
        simp only [decide_eq_true_eq, not_not] at hno
        exact hlen ((hshape t hm).1 hno)
  · cases hf : ((c0 :: rest).map Matrix.buildTable).find?
        (fun t => decide (t.shape ≠ (Matrix.buildTable c0).shape)) with
    | some t =>
      have hp : t.shape ≠ (Matrix.buildTable c0).shape := by
        simpa using List.find?_some hf
      have hm := List.mem_of_find?_eq_some hf
      constructor
      · intro hcontra
        exact absurd hcontra (by simp)
      · intro hall
        exact absurd ((hshape t hm).2 (hall t hm)) hp
    | none =>
      constructor
      · intro _ t hm
        have hno := List.find?_eq_none.1 hf t hm
        simp only [decide_eq_true_eq, not_not] at hno
        exact (hshape t hm).1 hno
      · intro _
        rfl

/-- Claim C4: for every non-empty sequence of N single-column input tables
with pairwise-distinct sample identifiers that share one row-key set of
size R (row keys unique within each table, as the data model requires),
both the sequential and the recursive merger return a matrix of shape
(R, N) whose columns are exactly the N input sample identifiers, with no
duplicate and no dropped columns. -/
theorem merged_matrix_shape (dfs : List DataFrame) (K : Finset String)
    (R N : Nat) (hne : dfs ≠ [])
    (hwf : ∀ df ∈ dfs, df.WF)
    (hsingle : ∀ df ∈ dfs, df.cols.length = 1)
    (hkeys : ∀ df ∈ dfs, df.keys.toFinset = K)
    (hR : K.card = R) (hN : dfs.length = N)
    (hcols : (colsJoin dfs).Nodup) :
    (∃ M, Matrix.join_dataframes_sequentially dfs = Except.ok M ∧
      M.shape = (R, N) ∧ M.cols.Nodup ∧ M.cols.Perm (colsJoin dfs)) ∧
    (∃ M, Matrix.join_dataframes_recursively dfs = Except.ok M ∧
      M.shape = (R, N) ∧ M.cols.Nodup ∧ M.cols.Perm (colsJoin dfs)) := by
  obtain ⟨d0, rest, rfl⟩ := List.exists_cons_of_ne_nil hne
  have hBshape : (bigMergeFrame (d0 :: rest)).shape = (R, N) := by
    rw [bigMergeFrame_shape,
      finalKeys_length_shared hne (WF_keys_nodup hwf) hkeys, hR,
      colsJoin_length_single hsingle, hN]
  have hNrest : rest.length + 1 = N := by
    simpa using hN
  have hd0len : d0.shape.1 = R := by
    show d0.rows.length = R
    have hnd : d0.keys.Nodup := (hwf d0 (List.mem_cons_self _ _)).1
    have hkl : d0.keys.length = R := by
      rw [← List.toFinset_card_of_nodup hnd,
        hkeys d0 (List.mem_cons_self _ _), hR]
    calc d0.rows.length = (d0.rows.map Prod.fst).length :=
          (List.length_map _ _).symm
      _ = R := hkl
  have hexp : ((d0.shape.1, rest.length + 1) : Nat × Nat) = (R, N) := by
    rw [hd0len, hNrest]
  have hsel : ((bigMergeFrame (d0 :: rest)).selectCols
      ((bigMergeFrame (d0 :: rest)).cols.insertionSort keyLe)).shape =
      (bigMergeFrame (d0 :: rest)).shape := by
    rw [selectCols_shape, List.length_insertionSort]
    rfl
  constructor
  · rw [Matrix.join_seq_closed hwf, hexp, if_pos hBshape]
    exact ⟨_, rfl, hBshape, hcols, List.Perm.refl _⟩
  · rw [Matrix.join_rec_closed hwf, hexp, hsel, if_pos hBshape]
    refine ⟨_, rfl, hsel.trans hBshape, ?_, ?_⟩
    · exact (List.perm_insertionSort keyLe _).nodup_iff.2 hcols
    · exact List.perm_insertionSort keyLe _

/-- Claim C4 witness: two single-column tables with shared key set
of size 2 (listed in different orders); both mergers return a 2 by 2
matrix with both sample columns. -/
theorem merged_matrix_shape_witness :
    (([⟨["s1"], [("g1", [some 1]), ("g2", [some 2])]⟩,
       ⟨["s2"], [("g2", [some 3]), ("g1", [some 4])]⟩] : List DataFrame) ≠ [] ∧
     (∀ df ∈ ([⟨["s1"], [("g1", [some 1]), ("g2", [some 2])]⟩,
       ⟨["s2"], [("g2", [some 3]), ("g1", [some 4])]⟩] : List DataFrame), df.WF) ∧
     (∀ df ∈ ([⟨["s1"], [("g1", [some 1]), ("g2", [some 2])]⟩,
       ⟨["s2"], [("g2", [some 3]), ("g1", [some 4])]⟩] : List DataFrame),
        df.cols.length = 1) ∧
     (∀ df ∈ ([⟨["s1"], [("g1", [some 1]), ("g2", [some 2])]⟩,
       ⟨["s2"], [("g2", [some 3]), ("g1", [some 4])]⟩] : List DataFrame),
        df.keys.toFinset = (["g1", "g2"] : List String).toFinset) ∧
     (colsJoin [⟨["s1"], [("g1", [some 1]), ("g2", [some 2])]⟩,
       ⟨["s2"], [("g2", [some 3]), ("g1", [some 4])]⟩]).Nodup) ∧
    ((∃ M, Matrix.join_dataframes_sequentially
        [⟨["s1"], [("g1", [some 1]), ("g2", [some 2])]⟩,
         ⟨["s2"], [("g2", [some 3]), ("g1", [some 4])]⟩] = Except.ok M ∧
      M.shape = (2, 2) ∧ M.cols.Nodup ∧
      M.cols.Perm (colsJoin [⟨["s1"], [("g1", [some 1]), ("g2", [some 2])]⟩,
         ⟨["s2"], [("g2", [some 3]), ("g1", [some 4])]⟩])) ∧
     (∃ M, Matrix.join_dataframes_recursively
        [⟨["s1"], [("g1", [some 1]), ("g2", [some 2])]⟩,
         ⟨["s2"], [("g2", [some 3]), ("g1", [some 4])]⟩] = Except.ok M ∧
      M.shape = (2, 2) ∧ M.cols.Nodup ∧
      M.cols.Perm (colsJoin [⟨["s1"], [("g1", [some 1]), ("g2", [some 2])]⟩,
         ⟨["s2"], [("g2", [some 3]), ("g1", [some 4])]⟩]))) :=
  ⟨⟨by decide, by decide, by decide, by decide, by decide⟩,
    merged_matrix_shape _ (["g1", "g2"] : List String).toFinset 2 2
      (by decide) (by decide) (by decide) (by decide) (by decide) (by decide)
      (by decide)⟩

/-- Claim C1: the concordance test raises no error exactly when the
sequential and the recursive merger return equal matrices; and whenever
both mergers return a matrix, the recursive output is exactly the
sequential output after column-order normalization (its columns reordered
into sorted label order): same row keys in the same order, the same set of
columns, and every cell — present value or missing marker — identical. -/
theorem concordance_equivalence (d0 : DataFrame) (rest : List DataFrame)
    (hwf : ∀ df ∈ d0 :: rest, df.WF) :
    (Matrix.concordance_test (d0 :: rest) = Except.ok () ↔
      ∃ M, Matrix.join_dataframes_sequentially (d0 :: rest) = Except.ok M ∧
        Matrix.join_dataframes_recursively (d0 :: rest) = Except.ok M) ∧
    (∀ Ms Mr,
      Matrix.join_dataframes_sequentially (d0 :: rest) = Except.ok Ms →
      Matrix.join_dataframes_recursively (d0 :: rest) = Except.ok Mr →
      Mr = Ms.selectCols (Ms.cols.insertionSort keyLe) ∧
      Mr.cols.Perm Ms.cols ∧ Mr.keys = Ms.keys ∧
      (∀ k c, c ∈ Ms.cols → Mr.cellAt k c = Ms.cellAt k c)) := by
  constructor
  · unfold Matrix.concordance_test
    cases hs : Matrix.join_dataframes_sequentially (d0 :: rest) with
    | error e =>
      show Except.error e = Except.ok () ↔ _
      constructor
      · intro h
        exact absurd h (by simp)
      · rintro ⟨M, hM, _⟩
        exact absurd hM (by simp)
    | ok s =>
      cases hr : Matrix.join_dataframes_recursively (d0 :: rest) with
      | error e =>
        show Except.error e = Except.ok () ↔ _
        constructor
        · intro h
          exact absurd h (by simp)
        · rintro ⟨M, _, hM⟩
          exact absurd hM (by simp)
      | ok r =>
        show (if s = r then Except.ok () else
          Except.error MergeError.notConcordant) = Except.ok () ↔ _
        by_cases hsr : s = r
        · subst hsr
          constructor
          · intro _
            exact ⟨s, rfl, rfl⟩
          · intro _
            rw [if_pos rfl]
        · rw [if_neg hsr]
          constructor
          · intro h
            exact absurd h (by simp)
          · rintro ⟨M, hM1, hM2⟩
            rw [Except.ok.injEq] at hM1 hM2
            exact absurd (hM1.trans hM2.symm) hsr
  · intro Ms Mr hMs hMr
    rw [Matrix.join_seq_closed hwf] at hMs
    rw [Matrix.join_rec_closed hwf] at hMr
    have hsel : ((bigMergeFrame (d0 :: rest)).selectCols
        ((bigMergeFrame (d0 :: rest)).cols.insertionSort keyLe)).shape =
        (bigMergeFrame (d0 :: rest)).shape := by
      rw [selectCols_shape, List.length_insertionSort]
      rfl
    rw [hsel] at hMr
    by_cases hc : (bigMergeFrame (d0 :: rest)).shape =
        (d0.shape.1, rest.length + 1)
    · rw [if_pos hc] at hMs hMr
      rw [Except.ok.injEq] at hMs hMr
      subst hMs
      subst hMr
      refine ⟨rfl, List.perm_insertionSort keyLe _, selectCols_keys _ _,
        fun k c hcol => ?_⟩
      exact cellAt_selectCols_eq ((List.mem_insertionSort keyLe).2 hcol) hcol
        (bigMergeFrame_WF hwf)
    · rw [if_neg hc] at hMs
      exact absurd hMs (by simp)

/-- Claim C1 witness: two one-gene tables with unsorted sample labels;
the concordance test fails (the outputs differ in column order), and once
both mergers return, the recursive output is the sequential output with
columns reordered. -/
theorem concordance_equivalence_witness :
    (∀ df ∈ ([⟨["b"], [("g", [some 1])]⟩,
        ⟨["a"], [("g", [some 2])]⟩] : List DataFrame), df.WF) ∧
    ((Matrix.concordance_test
        [⟨["b"], [("g", [some 1])]⟩, ⟨["a"], [("g", [some 2])]⟩] =
          Except.ok () ↔
      ∃ M, Matrix.join_dataframes_sequentially
          [⟨["b"], [("g", [some 1])]⟩, ⟨["a"], [("g", [some 2])]⟩] =
            Except.ok M ∧
        Matrix.join_dataframes_recursively
          [⟨["b"], [("g", [some 1])]⟩, ⟨["a"], [("g", [some 2])]⟩] =
            Except.ok M) ∧
    (∀ Ms Mr,
      Matrix.join_dataframes_sequentially
        [⟨["b"], [("g", [some 1])]⟩, ⟨["a"], [("g", [some 2])]⟩] =
          Except.ok Ms →
      Matrix.join_dataframes_recursively
        [⟨["b"], [("g", [some 1])]⟩, ⟨["a"], [("g", [some 2])]⟩] =
          Except.ok Mr →
      Mr = Ms.selectCols (Ms.cols.insertionSort keyLe) ∧
      Mr.cols.Perm Ms.cols ∧ Mr.keys = Ms.keys ∧
      (∀ k c, c ∈ Ms.cols → Mr.cellAt k c = Ms.cellAt k c))) :=
  ⟨by decide, concordance_equivalence _ _ (by decide)⟩

/-- Claim C6 counterexample: with table A (sample a, keys g1 and g2) and
table B (sample b, keys g2 and g3), neither merger returns a matrix: the
outer join yields 3 rows, the final shape assertion expects 2 (the first
table's row count), so both mergers raise the shape-mismatch error. -/
theorem missing_key_shape_abort :
    Matrix.join_dataframes_sequentially
        [⟨["a"], [("g1", [some 10]), ("g2", [some 20])]⟩,
         ⟨["b"], [("g2", [some 21]), ("g3", [some 31])]⟩] =
      Except.error (MergeError.shapeMismatch (3, 2) (2, 2)) ∧
    Matrix.join_dataframes_recursively
        [⟨["a"], [("g1", [some 10]), ("g2", [some 20])]⟩,
         ⟨["b"], [("g2", [some 21]), ("g3", [some 31])]⟩] =
      Except.error (MergeError.shapeMismatch (3, 2) (2, 2)) := by
  refine ⟨by decide, ?_⟩
  have hred : Matrix.reduceRounds
      [⟨["a"], [("g1", [some 10]), ("g2", [some 20])]⟩,
       ⟨["b"], [("g2", [some 21]), ("g3", [some 31])]⟩] =
      [mergeOuter ⟨["a"], [("g1", [some 10]), ("g2", [some 20])]⟩
        ⟨["b"], [("g2", [some 21]), ("g3", [some 31])]⟩] := by
    simp [Matrix.reduceRounds, Matrix.pairRound]
  simp only [Matrix.join_dataframes_recursively, hred]
  decide

/-- Claim C6 (amended): with table A (sample a, keys g1 and g2) and table
B (sample b, keys g2 and g3), the pairwise outer join itself produces the
table with row-key set g1, g2, g3 in which cells (g1, b) and (g3, a) hold
the missing marker and every source cell keeps its value; but both mergers
then fail their final shape assertion (3 rows produced, 2 expected) and
raise the shape-mismatch error instead of returning this matrix. -/
theorem missing_key_outer_join_amended :
    mergeOuter ⟨["a"], [("g1", [some 10]), ("g2", [some 20])]⟩
        ⟨["b"], [("g2", [some 21]), ("g3", [some 31])]⟩ =
      ⟨["a", "b"], [("g1", [some 10, none]), ("g2", [some 20, some 21]),
        ("g3", [none, some 31])]⟩ ∧
    (mergeOuter ⟨["a"], [("g1", [some 10]), ("g2", [some 20])]⟩
        ⟨["b"], [("g2", [some 21]), ("g3", [some 31])]⟩).cellAt "g1" "b" =
      some none ∧
    (mergeOuter ⟨["a"], [("g1", [some 10]), ("g2", [some 20])]⟩
        ⟨["b"], [("g2", [some 21]), ("g3", [some 31])]⟩).cellAt "g3" "a" =
      some none ∧
    (mergeOuter ⟨["a"], [("g1", [some 10]), ("g2", [some 20])]⟩
        ⟨["b"], [("g2", [some 21]), ("g3", [some 31])]⟩).cellAt "g1" "a" =
      some (some 10) ∧
    (mergeOuter ⟨["a"], [("g1", [some 10]), ("g2", [some 20])]⟩
        ⟨["b"], [("g2", [some 21]), ("g3", [some 31])]⟩).cellAt "g2" "a" =
      some (some 20) ∧
    (mergeOuter ⟨["a"], [("g1", [some 10]), ("g2", [some 20])]⟩
        ⟨["b"], [("g2", [some 21]), ("g3", [some 31])]⟩).cellAt "g2" "b" =
      some (some 21) ∧
    (mergeOuter ⟨["a"], [("g1", [some 10]), ("g2", [some 20])]⟩
        ⟨["b"], [("g2", [some 21]), ("g3", [some 31])]⟩).cellAt "g3" "b" =
      some (some 31) ∧
    Matrix.join_dataframes_sequentially
        [⟨["a"], [("g1", [some 10]), ("g2", [some 20])]⟩,
         ⟨["b"], [("g2", [some 21]), ("g3", [some 31])]⟩] =
      Except.error (MergeError.shapeMismatch (3, 2) (2, 2)) ∧
    Matrix.join_dataframes_recursively
        [⟨["a"], [("g1", [some 10]), ("g2", [some 20])]⟩,
         ⟨["b"], [("g2", [some 21]), ("g3", [some 31])]⟩] =
      Except.error (MergeError.shapeMismatch (3, 2) (2, 2)) := by
  refine ⟨by decide, by decide, by decide, by decide, by decide, by decide,
    by decide, by decide, ?_⟩
  have hred : Matrix.reduceRounds
      [⟨["a"], [("g1", [some 10]), ("g2", [some 20])]⟩,
       ⟨["b"], [("g2", [some 21]), ("g3", [some 31])]⟩] =
      [mergeOuter ⟨["a"], [("g1", [some 10]), ("g2", [some 20])]⟩
        ⟨["b"], [("g2", [some 21]), ("g3", [some 31])]⟩] := by
    simp [Matrix.reduceRounds, Matrix.pairRound]
  simp only [Matrix.join_dataframes_recursively, hred]
  decide

/-- Claim C5: at the failing input — two one-gene tables whose sample
labels arrive unsorted — the `__main__` recursive merger assigns the
sorted labels onto the existing columns without moving cell data, so its
column s1 holds the values of the table labeled s2; the `utils.matrix`
recursive merger reorders the data with the labels. -/
theorem main_recursive_column_mislabeling :
    MainModule.join_dataframes_recursively_main
        [⟨["s2"], [("g", [some 1])]⟩, ⟨["s1"], [("g", [some 2])]⟩] =
      Except.ok ⟨["s1", "s2"], [("g", [some 1, some 2])]⟩ ∧
    Matrix.join_dataframes_recursively
        [⟨["s2"], [("g", [some 1])]⟩, ⟨["s1"], [("g", [some 2])]⟩] =
      Except.ok ⟨["s1", "s2"], [("g", [some 2, some 1])]⟩ ∧
    (⟨["s1", "s2"], [("g", [some 1, some 2])]⟩ : DataFrame).cellAt "g" "s1" =
      some (some 1) ∧
    (⟨["s1", "s2"], [("g", [some 2, some 1])]⟩ : DataFrame).cellAt "g" "s1" =
      some (some 2) := by
  have hred : Matrix.reduceRounds
      [⟨["s2"], [("g", [some 1])]⟩, ⟨["s1"], [("g", [some 2])]⟩] =
      [mergeOuter ⟨["s2"], [("g", [some 1])]⟩ ⟨["s1"], [("g", [some 2])]⟩] := by
    simp [Matrix.reduceRounds, Matrix.pairRound]
  refine ⟨?_, ?_, by decide, by decide⟩
  · simp only [MainModule.join_dataframes_recursively_main, hred]
    decide
  · simp only [Matrix.join_dataframes_recursively, hred]
    decide

/-- Claim C2: at the failing input, the table labeled t1 holds value 7 at
row key h, yet the matrix the `__main__` recursive merger returns holds 5
at (h, t1) — the value of the table labeled t2 — breaking the value
round-trip; the `utils.matrix` recursive merger returns 7 there. -/
theorem main_recursive_roundtrip_violation :
    ("h", [some 7]) ∈ (⟨["t1"], [("h", [some 7])]⟩ : DataFrame).rows ∧
    MainModule.join_dataframes_recursively_main
        [⟨["t2"], [("h", [some 5])]⟩, ⟨["t1"], [("h", [some 7])]⟩] =
      Except.ok ⟨["t1", "t2"], [("h", [some 5, some 7])]⟩ ∧
    (⟨["t1", "t2"], [("h", [some 5, some 7])]⟩ : DataFrame).cellAt "h" "t1" =
      some (some 5) ∧
    some (some (5 : Int)) ≠ some (some (7 : Int)) ∧
    Matrix.join_dataframes_recursively
        [⟨["t2"], [("h", [some 5])]⟩, ⟨["t1"], [("h", [some 7])]⟩] =
      Except.ok ⟨["t1", "t2"], [("h", [some 7, some 5])]⟩ ∧
    (⟨["t1", "t2"], [("h", [some 7, some 5])]⟩ : DataFrame).cellAt "h" "t1" =
      some (some 7) := by
  have hred : Matrix.reduceRounds
      [⟨["t2"], [("h", [some 5])]⟩, ⟨["t1"], [("h", [some 7])]⟩] =
      [mergeOuter ⟨["t2"], [("h", [some 5])]⟩ ⟨["t1"], [("h", [some 7])]⟩] := by
    simp [Matrix.reduceRounds, Matrix.pairRound]
  refine ⟨by decide, ?_, by decide, by decide, ?_, by decide⟩
  · simp only [MainModule.join_dataframes_recursively_main, hred]
    decide
  · simp only [Matrix.join_dataframes_recursively, hred]
    decide

/-- Claim C7: with the random row draws made explicit as one row index per
table, and the tables and matrix as this program builds them (one column
per table, one present value per row, every sampled coordinate present in
the matrix), the coherence check passes exactly when every sampled
(row key, value) pair agrees with the matrix cell at (row key, that
table's sample column); any raised coherence error names a sampled
coordinate where the table value and the matrix cell genuinely disagree
(sample, row key, expected, actual); and when the matrix agrees with every
source cell the check passes for every possible choice of sampled rows. -/
theorem coherence_check_characterization :
    ∀ (dfs : List DataFrame) (merged : DataFrame) (picks : List Nat),
      picks.length = dfs.length →
      (∀ p ∈ dfs.zip picks, p.2 < p.1.rows.length) →
      (∀ df ∈ dfs, df.cols.length = 1 ∧
        ∀ kv ∈ df.rows, kv.2.length = 1 ∧ (kv.2.headD none).isSome) →
      (∀ p ∈ dfs.zip picks,
        (merged.cellAt (sampledGene p.1 p.2) (Matrix.sampleOf p.1)).isSome) →
      ((Matrix.randomly_sample_coherence_check dfs merged picks =
          Except.ok () ↔
        ∀ p ∈ dfs.zip picks,
          merged.cellAt (sampledGene p.1 p.2) (Matrix.sampleOf p.1) =
            some (sampledValue p.1 p.2)) ∧
      (∀ s g v c, Matrix.randomly_sample_coherence_check dfs merged picks =
          Except.error (MergeError.coherence s g v c) →
        ∃ p ∈ dfs.zip picks, Matrix.sampleOf p.1 = s ∧
          sampledGene p.1 p.2 = g ∧ sampledValue p.1 p.2 = v ∧
          merged.cellAt g s = some c ∧ v ≠ c) ∧
      ((∀ df ∈ dfs, ∀ kv ∈ df.rows,
          merged.cellAt kv.1 (Matrix.sampleOf df) = some (kv.2.headD none)) →
        Matrix.randomly_sample_coherence_check dfs merged picks =
          Except.ok ())) := by
  intro dfs
  induction dfs with
  | nil =>
    intro merged picks hlen hpick htab hcoord
    refine ⟨?_, ?_, ?_⟩
    · simp [Matrix.randomly_sample_coherence_check]
    · intro s g v c h
      simp [Matrix.randomly_sample_coherence_check] at h
    · intro _
      rfl
  | cons df rest ih =>
    intro merged picks hlen hpick htab hcoord
    cases picks with
    | nil => simp at hlen
    | cons i ps =>
      rw [List.zip_cons_cons] at hpick hcoord ⊢
      have hpick0 : i < df.rows.length :=
        hpick (df, i) (List.mem_cons_self _ _)
      obtain ⟨hcols0, hvals0⟩ := htab df (List.mem_cons_self _ _)
      obtain ⟨cell, hcell, hv0some, hco⟩ :=
        coherenceOne_eq hpick0 hcols0 hvals0
          (hcoord (df, i) (List.mem_cons_self _ _))
      have hstep : Matrix.randomly_sample_coherence_check (df :: rest) merged
          (i :: ps) =
          match Matrix.coherenceOne merged df i with
          | .ok _ => Matrix.randomly_sample_coherence_check rest merged ps
          | .error e => .error e := rfl
      obtain ⟨ih1, ih2, ih3⟩ := ih merged ps (by simpa using hlen)
        (fun p hp => hpick p (List.mem_cons_of_mem _ hp))
        (fun d hd => htab d (List.mem_cons_of_mem _ hd))
        (fun p hp => hcoord p (List.mem_cons_of_mem _ hp))
      by_cases hneq : Matrix.pyNeq (sampledValue df i) cell = true
      · -- the sampled head row disagrees: the loop raises at it.
        have hchk : Matrix.randomly_sample_coherence_check (df :: rest) merged
            (i :: ps) = Except.error (MergeError.coherence (Matrix.sampleOf df)
              (sampledGene df i) (sampledValue df i) cell) := by
          rw [hstep, hco, if_pos hneq]
        refine ⟨?_, ?_, ?_⟩
        · rw [hchk]
          constructor
          · intro h
            exact absurd h (by simp)
          · intro hall
            exfalso
            have hx := hall (df, i) (List.mem_cons_self _ _)
            rw [hcell, Option.some.injEq] at hx
            have hf := (pyNeq_false_iff hv0some).2 hx
            rw [hf] at hneq
            exact absurd hneq (by simp)
        · intro s g v c h
          rw [hchk] at h
          simp only [Except.error.injEq, MergeError.coherence.injEq] at h
          obtain ⟨h1, h2, h3, h4⟩ := h
          refine ⟨(df, i), List.mem_cons_self _ _, h1, h2, h3, ?_, ?_⟩
          · rw [h2, h1, h4] at hcell
            exact hcell
          · have hne2 := pyNeq_true_ne hv0some hneq
            rw [h3, h4] at hne2
            exact hne2
        · intro hall
          exfalso
          have hrm : df.rows.getD i ("", []) ∈ df.rows := rows_getD_mem hpick0
          have hx : merged.cellAt (sampledGene df i) (Matrix.sampleOf df) =
              some (sampledValue df i) :=
            hall df (List.mem_cons_self _ _) _ hrm
          rw [hcell, Option.some.injEq] at hx
          have hf := (pyNeq_false_iff hv0some).2 hx
          rw [hf] at hneq
          exact absurd hneq (by simp)
      · -- the sampled head row agrees: the loop moves to the tail.
        have hok : Matrix.coherenceOne merged df i = Except.ok () := by
          rw [hco, if_neg hneq]
        have hchk : Matrix.randomly_sample_coherence_check (df :: rest) merged
            (i :: ps) =
            Matrix.randomly_sample_coherence_check rest merged ps := by
          rw [hstep, hok]
        have hcellv : merged.cellAt (sampledGene df i) (Matrix.sampleOf df) =
            some (sampledValue df i) := by
          have hcf : Matrix.pyNeq (sampledValue df i) cell = false :=
            Bool.eq_false_iff.2 hneq
          have hcv := (pyNeq_false_iff hv0some).1 hcf
          rw [hcell, hcv]
        refine ⟨?_, ?_, ?_⟩
        · rw [hchk, ih1]
          constructor
          · intro h p hp
            rcases List.mem_cons.1 hp with rfl | hp2
            · exact hcellv
            · exact h p hp2
          · intro h p hp
            exact h p (List.mem_cons_of_mem _ hp)
        · intro s g v c h
          rw [hchk] at h
          obtain ⟨p, hp, hrest⟩ := ih2 s g v c h
          exact ⟨p, List.mem_cons_of_mem _ hp, hrest⟩
        · intro hall
          rw [hchk]
          exact ih3 (fun d hd => hall d (List.mem_cons_of_mem _ hd))

/-- Claim C7 witness: one single-gene table and a matrix that agrees with
it; the coherence check passes, and the characterization instantiates. -/
theorem coherence_check_characterization_witness :
    (([0] : List Nat).length =
      ([⟨["s1"], [("g", [some 4])]⟩] : List DataFrame).length ∧
     (∀ p ∈ ([⟨["s1"], [("g", [some 4])]⟩] : List DataFrame).zip [0],
        p.2 < p.1.rows.length) ∧
     (∀ df ∈ ([⟨["s1"], [("g", [some 4])]⟩] : List DataFrame),
        df.cols.length = 1 ∧
        ∀ kv ∈ df.rows, kv.2.length = 1 ∧ (kv.2.headD none).isSome) ∧
     (∀ p ∈ ([⟨["s1"], [("g", [some 4])]⟩] : List DataFrame).zip [0],
        ((⟨["s1"], [("g", [some 4])]⟩ : DataFrame).cellAt
          (sampledGene p.1 p.2) (Matrix.sampleOf p.1)).isSome)) ∧
    ((Matrix.randomly_sample_coherence_check [⟨["s1"], [("g", [some 4])]⟩]
        ⟨["s1"], [("g", [some 4])]⟩ [0] = Except.ok () ↔
      ∀ p ∈ ([⟨["s1"], [("g", [some 4])]⟩] : List DataFrame).zip [0],
        (⟨["s1"], [("g", [some 4])]⟩ : DataFrame).cellAt
            (sampledGene p.1 p.2) (Matrix.sampleOf p.1) =
          some (sampledValue p.1 p.2)) ∧
    (∀ s g v c, Matrix.randomly_sample_coherence_check
        [⟨["s1"], [("g", [some 4])]⟩] ⟨["s1"], [("g", [some 4])]⟩ [0] =
          Except.error (MergeError.coherence s g v c) →
      ∃ p ∈ ([⟨["s1"], [("g", [some 4])]⟩] : List DataFrame).zip [0],
        Matrix.sampleOf p.1 = s ∧ sampledGene p.1 p.2 = g ∧
        sampledValue p.1 p.2 = v ∧
        (⟨["s1"], [("g", [some 4])]⟩ : DataFrame).cellAt g s = some c ∧
        v ≠ c) ∧
    ((∀ df ∈ ([⟨["s1"], [("g", [some 4])]⟩] : List DataFrame),
        ∀ kv ∈ df.rows,
        (⟨["s1"], [("g", [some 4])]⟩ : DataFrame).cellAt kv.1
            (Matrix.sampleOf df) = some (kv.2.headD none)) →
      Matrix.randomly_sample_coherence_check [⟨["s1"], [("g", [some 4])]⟩]
        ⟨["s1"], [("g", [some 4])]⟩ [0] = Except.ok ())) :=
  ⟨⟨by decide, by decide, by decide, by decide⟩,
    coherence_check_characterization _ _ _ (by decide) (by decide) (by decide)
      (by decide)⟩

/-- Claim C10: neither merger in `utils.matrix` mutates its caller's
list.  Both copy the list on entry (`dfs = dfs.copy()`); the sequential
merger only iterates, and the recursive merger's destructive `pop(0)`
loop empties only the copy and the freshly allocated per-round lists.
After either call returns or raises, the caller's list object still holds
the same tables in the same order. -/
theorem mergers_do_not_mutate_input (s : PyHeap) (dfsRef : Nat)
    (hvalid : dfsRef < s.heap.length) :
    readList (Matrix.join_sequentially_state s dfsRef).1 dfsRef =
      readList s dfsRef ∧
    readList (Matrix.join_recursively_state s dfsRef).1 dfsRef =
      readList s dfsRef := by
  have hcopy : readList (allocList s (readList s dfsRef)).1 dfsRef =
      readList s dfsRef :=
    readList_alloc_preserved s _ dfsRef hvalid
  constructor
  · exact hcopy
  · have hv2 : dfsRef < (allocList s (readList s dfsRef)).1.heap.length := by
      show dfsRef < (s.heap ++ _).length
      rw [List.length_append]
      omega
    have hnev : dfsRef ≠ (allocList s (readList s dfsRef)).2 := by
      show dfsRef ≠ s.heap.length
      omega
    have hfr : readList
        (Matrix.reduceRoundsState (allocList s (readList s dfsRef)).1
          (allocList s (readList s dfsRef)).2).1 dfsRef =
        readList s dfsRef := by
      rw [Matrix.reduceRoundsState_frame _ _ dfsRef hv2 hnev, hcopy]
    unfold Matrix.join_recursively_state
    cases readList (allocList s (readList s dfsRef)).1
        (allocList s (readList s dfsRef)).2 with
    | nil => exact hcopy
    | cons d0 rest =>
      cases readList
          (Matrix.reduceRoundsState (allocList s (readList s dfsRef)).1
            (allocList s (readList s dfsRef)).2).1
          (Matrix.reduceRoundsState (allocList s (readList s dfsRef)).1
            (allocList s (readList s dfsRef)).2).2 with
      | nil => exact hfr
      | cons r rest2 =>
        cases rest2 with
        | nil => exact hfr
        | cons a b => exact hfr

/-- Claim C10 witness: a heap holding one caller list with one table;
after both mergers run, the caller's list is unchanged. -/
theorem mergers_do_not_mutate_input_witness :
    (0 < (PyHeap.mk [[⟨["s1"], [("g", [some 4])]⟩]]).heap.length) ∧
    (readList (Matrix.join_sequentially_state
        ⟨[[⟨["s1"], [("g", [some 4])]⟩]]⟩ 0).1 0 =
      readList ⟨[[⟨["s1"], [("g", [some 4])]⟩]]⟩ 0 ∧
     readList (Matrix.join_recursively_state
        ⟨[[⟨["s1"], [("g", [some 4])]⟩]]⟩ 0).1 0 =
      readList ⟨[[⟨["s1"], [("g", [some 4])]⟩]]⟩ 0) :=
  ⟨by decide, mergers_do_not_mutate_input _ 0 (by decide)⟩

end MergeCounts
